import Mathlib

/-!
Verification of the ExpertNet frontend matching / team-reassignment logic
(frontend/script.js).  The team state kept by the page is a pair of a
member map (a JS object keyed by professor name, insertion ordered) and an
explicit ordering array of names.  We embed the map as an insertion-ordered
list of members with unique names, and embed the three mutating operations:

* initialisation of the team state from the API team array
  (renderResults, lines 233-242),
* the swap-icon transition (renderTeamCards, lines 336-368),
* the dropdown transition (attachDropdownListeners, lines 374-444).

Machine details kept faithful to the source: JS Set union keeps first
occurrences (jsSetDedup), Array.prototype.splice at indexOf+1 prepends when
the element is absent (jsInsertAfter), the profOrder de-duplication filter
keeps first occurrences, and the emptiness test (!tg || tg.trim() === '')
holds exactly when every character of the tag is whitespace (isBlankTag).
-/

/-- One entry of all_profs_by_tag: the roster's record of a professor. -/
structure Prof where
  name : String
  department : String
  base_url : String
  position : String
  google_scholar_url : String
deriving DecidableEq

/-- A team member as stored in profMap: denormalized profile fields plus
the list of tags currently assigned to this member. -/
structure Member where
  name : String
  department : String
  base_url : String
  position : String
  google_scholar_url : String
  tags : List String
deriving DecidableEq

/-- The roster index all_profs_by_tag: tag to the professors possessing it.
A missing key yields the empty list, as (apiData.all_profs_by_tag[tag] || []). -/
abbrev Roster := String → List Prof

/-- The TeamAssignment state: profOrder (ordering array of names) plus
profMap (insertion-ordered member entries keyed by unique name). -/
structure TeamState where
  order : List String
  members : List Member
deriving DecidableEq

/-- Lookup of the entry keyed n in a member list. -/
def findName (ms : List Member) (n : String) : Option Member :=
  ms.find? (fun m => m.name == n)

/-- Lookup profMap[n]. -/
def TeamState.find? (s : TeamState) (n : String) : Option Member :=
  findName s.members n

/-- The names of the member entries, in insertion order. -/
def memberNames (ms : List Member) : List String :=
  ms.map Member.name

/-- profMap[n] exists (as a truthiness test on the object field). -/
def hasMember (ms : List Member) (n : String) : Bool :=
  ms.any (fun m => m.name == n)

/-- In-place update of the tags of the entry keyed n. -/
def updateTags (ms : List Member) (n : String) (f : List String → List String) :
    List Member :=
  ms.map (fun m => if m.name = n then { m with tags := f m.tags } else m)

/-- delete profMap[n]. -/
def removeMember (ms : List Member) (n : String) : List Member :=
  ms.filter (fun m => m.name != n)

/-- JS Set construction Array.from(new Set(l)): de-duplication keeping the
first occurrence of each element, in order.  The same function embeds the
profOrder de-duplication filter((n, i, arr) => arr.indexOf(n) === i). -/
def jsSetDedup (l : List String) : List String :=
  l.foldl (fun acc t => if t ∈ acc then acc else acc ++ [t]) []

/-- Insert n right after the first occurrence of o.  Only used when o is a
member of the list. -/
def insertAfterFirst : List String → String → String → List String
  | [], _, n => [n]
  | x :: xs, o, n => if x = o then x :: n :: xs else x :: insertAfterFirst xs o n

/-- profOrder.splice(profOrder.indexOf(o) + 1, 0, n): when o is absent,
indexOf gives -1 and the splice prepends n. -/
def jsInsertAfter (l : List String) (o n : String) : List String :=
  if o ∈ l then insertAfterFirst l o n else n :: l

/-- The test (!tg || tg.trim() === '') of the source: the tag is empty or
consists only of whitespace. -/
def isBlankTag (tg : String) : Bool :=
  tg.data.all Char.isWhitespace

/-- The per-professor occurrence count computed by getProfsForTags
(lines 244-255): for every tag of the list, every roster entry for that tag
with this name contributes one. -/
def profTagCount (roster : Roster) (tags : List String) (n : String) : Nat :=
  (tags.map (fun tg => ((roster tg).filter (fun p => p.name == n)).length)).sum

/-- allProfsForTags.find(p => p.name === newProfName)?.count || 1
(line 386): the prof appears in the count table iff its count is nonzero,
and a missing entry defaults to 1. -/
def newProfCommonCount (roster : Roster) (tags : List String) (n : String) : Nat :=
  let c := profTagCount roster tags n
  if c = 0 then 1 else c

/-- The tagsToMove computation of the dropdown handler (lines 387-397):
with more than one tag on the card, keep the non-blank tags the destination
also possesses per the roster; otherwise move the whole tag list. -/
def tagsToMove (roster : Roster) (T : List String) (dest : String) : List String :=
  if newProfCommonCount roster T dest ≥ 1 ∧ T.length > 1 then
    T.filter (fun tg => !(isBlankTag tg) && (roster tg).any (fun p => p.name == dest))
  else T

/-- The profile-field lookup of lines 405-416: scan the tags to move,
skipping blank ones, and take the fields of the first roster entry found for
the destination; fields default to the empty string. -/
def newMemberInfo (roster : Roster) : List String → String → Member
  | [], n => ⟨n, "", "", "", "", []⟩
  | tg :: rest, n =>
    if isBlankTag tg then newMemberInfo roster rest n
    else
      match (roster tg).find? (fun p => p.name == n) with
      | some p => ⟨n, p.department, p.base_url, p.position, p.google_scholar_url, []⟩
      | none => newMemberInfo roster rest n

/-- The dropdown reassignment transition (attachDropdownListeners,
lines 374-444).  Returns none exactly when the source is not a member, in
which case the source handler would fail reading profMap[oldProfName].tags
before any mutation. -/
def dropdownMove (roster : Roster) (s : TeamState) (oldProf newProf : String) :
    Option TeamState :=
  if newProf = "" then some s else
  match findName s.members oldProf with
  | none => none
  | some src =>
    let mv := tagsToMove roster src.tags newProf
    let ms1 := updateTags s.members oldProf (fun tgs => tgs.filter (fun tg => !(mv.contains tg)))
    let isNew := !(hasMember ms1 newProf)
    let ms2 := if isNew then ms1 ++ [newMemberInfo roster mv newProf] else ms1
    let ord2 := if isNew then jsInsertAfter s.order oldProf newProf else s.order
    let fil := mv.filter (fun tg => !(isBlankTag tg))
    let ms3 := updateTags ms2 newProf (fun tgs => jsSetDedup (tgs ++ fil))
    let srcEmptied :=
      match findName ms3 oldProf with
      | some m => m.tags.isEmpty
      | none => false
    let ms4 := if srcEmptied then removeMember ms3 oldProf else ms3
    let ord4 := if srcEmptied then ord2.filter (fun x => x != oldProf) else ord2
    some { order := jsSetDedup ord4, members := ms4 }

/-- Object.entries(profMap) scan of lines 343-349: the first member entry
whose tag list includes the tag. -/
def firstHolder (ms : List Member) (tag : String) : Option Member :=
  ms.find? (fun m => m.tags.contains tag)

/-- The member object created by the swap handler (line 356): name,
department and base_url only; the other fields are absent (rendered as
the empty string). -/
def swapNewMember (roster : Roster) (tag n : String) : Member :=
  match (roster tag).find? (fun p => p.name == n) with
  | some p => ⟨n, p.department, p.base_url, "", "", []⟩
  | none => ⟨n, "", "", "", "", []⟩

/-- The swap-icon transition (renderTeamCards, lines 336-368): move one tag
from the first member currently holding it to the clicked professor.  A
no-op when no member holds the tag or the clicked professor already does. -/
def swapMove (roster : Roster) (s : TeamState) (profName tag : String) : TeamState :=
  match firstHolder s.members tag with
  | none => s
  | some old =>
    if profName = old.name then s else
    let ms1 := updateTags s.members old.name (fun tgs => tgs.filter (fun tg => tg != tag))
    let isNew := !(hasMember ms1 profName)
    let ms2 := if isNew then ms1 ++ [swapNewMember roster tag profName] else ms1
    let ord2 := if isNew then jsInsertAfter s.order old.name profName else s.order
    let ms3 := updateTags ms2 profName (fun tgs => tgs ++ [tag])
    let srcEmptied :=
      match findName ms3 old.name with
      | some m => m.tags.isEmpty
      | none => false
    let ms4 := if srcEmptied then removeMember ms3 old.name else ms3
    let ord4 := if srcEmptied then ord2.filter (fun x => x != old.name) else ord2
    { order := jsSetDedup ord4, members := ms4 }

/-- One step of the initial team construction (renderResults, lines
235-242): merge a team entry into the map, pushing the name on first
introduction and concatenating tags otherwise. -/
def initStep (s : TeamState) (tp : Member) : TeamState :=
  if hasMember s.members tp.name then
    { s with members := updateTags s.members tp.name (fun tgs => tgs ++ tp.tags) }
  else
    { order := s.order ++ [tp.name], members := s.members ++ [tp] }

/-- The initial team construction from the API team array. -/
def initTeam (team : List Member) : TeamState :=
  team.foldl initStep ⟨[], []⟩

/-- A reassignment request: either a swap-icon click or a dropdown
selection. -/
inductive Move where
  | swap (profName tag : String)
  | drop (oldProf newProf : String)
deriving DecidableEq

/-- Apply one request.  A failing dropdown (missing source) leaves the
state unchanged: the exception is raised before any mutation. -/
def applyMove (roster : Roster) (s : TeamState) : Move → TeamState
  | .swap p t => swapMove roster s p t
  | .drop o n => (dropdownMove roster s o n).getD s

/-- Apply an ordered sequence of requests. -/
def applyMoves (roster : Roster) (s : TeamState) (l : List Move) : TeamState :=
  l.foldl (applyMove roster) s

/-- Well-formedness of the team state, maintained by the page: the ordering
has no duplicates, member names are unique, and the ordering and the map
hold the same names. -/
def WF (s : TeamState) : Prop :=
  s.order.Nodup ∧ (memberNames s.members).Nodup ∧
    (∀ n ∈ s.order, n ∈ memberNames s.members) ∧
    (∀ n ∈ memberNames s.members, n ∈ s.order)

/-- Every member's own tag list is duplicate-free. -/
def TagsWF (s : TeamState) : Prop :=
  ∀ m ∈ s.members, m.tags.Nodup

/-- Every member's tag list is non-empty. -/
def NonemptyTags (s : TeamState) : Prop :=
  ∀ m ∈ s.members, m.tags ≠ []

/-- No tag appears in the tag lists of two entries of different name. -/
def disjointMemberTags (ms : List Member) : Prop :=
  ∀ m1 ∈ ms, ∀ m2 ∈ ms, m1.name ≠ m2.name → ∀ tg ∈ m1.tags, tg ∉ m2.tags

/-- No tag is held by two members of different name. -/
def disjointTags (s : TeamState) : Prop :=
  disjointMemberTags s.members

instance (s : TeamState) : Decidable (WF s) := by
  unfold WF
  infer_instance

instance (s : TeamState) : Decidable (TagsWF s) := by
  unfold TagsWF
  infer_instance

instance (s : TeamState) : Decidable (NonemptyTags s) := by
  unfold NonemptyTags
  infer_instance

instance (ms : List Member) : Decidable (disjointMemberTags ms) := by
  unfold disjointMemberTags
  infer_instance

instance (s : TeamState) : Decidable (disjointTags s) := by
  unfold disjointTags
  infer_instance

/-- Modelled from the spec: a scored expert of the individual-mode result
list (the backend ranking pipeline is not part of the frontend source);
rank is the fused ordering score, modelled as a rational. -/
structure RankedProf where
  name : String
  rank : ℚ
deriving DecidableEq

/-- Modelled from the spec: the result ordering of individual mode —
descending by rank score, ties broken by ascending lexicographic
identifier. -/
def rankBefore (a b : RankedProf) : Prop :=
  b.rank < a.rank ∨ (a.rank = b.rank ∧ a.name ≤ b.name)

instance : DecidableRel rankBefore := fun a b => by
  unfold rankBefore
  infer_instance

/-- Modelled from the spec: the individual-mode result list is the full
expert roster sorted by the rankBefore ordering. -/
def sortIndividual (l : List RankedProf) : List RankedProf :=
  List.insertionSort rankBefore l

instance : IsTotal RankedProf rankBefore := by
  constructor
  intro a b
  rcases lt_trichotomy a.rank b.rank with h | h | h
  · exact Or.inr (Or.inl h)
  · rcases le_total a.name b.name with hn | hn
    · exact Or.inl (Or.inr ⟨h, hn⟩)
    · exact Or.inr (Or.inr ⟨h.symm, hn⟩)
  · exact Or.inl (Or.inl h)

instance : IsTrans RankedProf rankBefore := by
  constructor
  intro a b c hab hbc
  rcases hab with h1 | ⟨h1, h1n⟩ <;> rcases hbc with h2 | ⟨h2, h2n⟩
  · exact Or.inl (h2.trans h1)
  · exact Or.inl (by rw [← h2]; exact h1)
  · exact Or.inl (by rw [h1]; exact h2)
  · exact Or.inr ⟨h1.trans h2, h1n.trans h2n⟩

instance : IsAntisymm RankedProf rankBefore := by
  constructor
  intro a b hab hba
  rcases hab with h1 | ⟨h1, h1n⟩
  · rcases hba with h2 | ⟨h2, h2n⟩
    · exact absurd h1 (lt_asymm h2)
    · exact absurd h1 (h2 ▸ lt_irrefl _)
  · rcases hba with h2 | ⟨h2, h2n⟩
    · exact absurd h2 (h1 ▸ lt_irrefl _)
    · have hname : a.name = b.name := le_antisymm h1n h2n
      cases a
      cases b
      simp only at h1 hname
      simp [h1, hname]

/-- The subsequence of l1 consisting of the entries also present in l2:
used to state that a transition preserves the relative order of the
members it retains. -/
def commonSeq (l1 l2 : List String) : List String :=
  l1.filter (fun x => decide (x ∈ l2))

/-- A roster entry with only the name populated, for concrete test data. -/
def exProf (n : String) : Prof :=
  ⟨n, "", "", "", ""⟩

/-- A member entry with only name and tags populated, for concrete test data. -/
def exMember (n : String) (tags : List String) : Member :=
  ⟨n, "", "", "", "", tags⟩

/-- Roster: professor P possesses tags a and b; nobody else possesses anything. -/
def exR1 : Roster := fun t => if t = "a" ∨ t = "b" then [exProf "P"] else []

/-- Team: P holding a and b. -/
def exS1 : TeamState := ⟨["P"], [exMember "P" ["a", "b"]]⟩

/-- Team: P holding a and b, Q holding c. -/
def exS1b : TeamState := ⟨["P", "Q"], [exMember "P" ["a", "b"], exMember "Q" ["c"]]⟩

/-- Roster: professor B possesses the whitespace tag. -/
def exR2 : Roster := fun t => if t = " " then [exProf "B"] else []

/-- Team: A holding only the whitespace tag. -/
def exS2 : TeamState := ⟨["A"], [exMember "A" [" "]]⟩

/-- Roster: professor Q possesses tag a and the whitespace tag. -/
def exR3 : Roster := fun t => if t = "a" ∨ t = " " then [exProf "Q"] else []

/-- Team: P holding a and the whitespace tag. -/
def exS3 : TeamState := ⟨["P"], [exMember "P" ["a", " "]]⟩

/-- Roster: professor Q possesses tags a and b (not c). -/
def exR4 : Roster := fun t => if t = "a" ∨ t = "b" then [exProf "Q"] else []

/-- Team: P holding a, b and c. -/
def exS4 : TeamState := ⟨["P"], [exMember "P" ["a", "b", "c"]]⟩

/-- Roster: professor Q possesses only tag a. -/
def exR4b : Roster := fun t => if t = "a" then [exProf "Q"] else []

/-- Roster: professor Q possesses only the whitespace tag. -/
def exR6 : Roster := fun t => if t = " " then [exProf "Q"] else []

/-- Team: P holding only the whitespace tag. -/
def exS6 : TeamState := ⟨["P"], [exMember "P" [" "]]⟩

/-- Roster: professor D possesses tag a and the two-space blank tag. -/
def exR10 : Roster := fun t => if t = "a" ∨ t = "  " then [exProf "D"] else []

/-- Team: S holding a and the two-space blank tag. -/
def exS10 : TeamState := ⟨["S"], [exMember "S" ["a", "  "]]⟩

/-- Roster: professors P and Q both possess tags a and b. -/
def exRW : Roster := fun t => if t = "a" ∨ t = "b" then [exProf "P", exProf "Q"] else []

/-- Team: P holding a and b, X holding z. -/
def exSW : TeamState := ⟨["P", "X"], [exMember "P" ["a", "b"], exMember "X" ["z"]]⟩

/-! ### Basic lemmas about the member map -/

theorem memberNames_append (ms1 ms2 : List Member) :
    memberNames (ms1 ++ ms2) = memberNames ms1 ++ memberNames ms2 := by
  simp [memberNames]

theorem memberNames_updateTags (ms : List Member) (n : String)
    (f : List String → List String) :
    memberNames (updateTags ms n f) = memberNames ms := by
  induction ms with
  | nil => rfl
  | cons m ms ih =>
    simp only [updateTags, List.map_cons, memberNames] at *
    by_cases h : m.name = n <;> simp [h, ih]

theorem memberNames_removeMember (ms : List Member) (n : String) :
    memberNames (removeMember ms n) = (memberNames ms).filter (fun x => x != n) := by
  induction ms with
  | nil => rfl
  | cons m ms ih =>
    simp only [removeMember, memberNames, List.filter_cons, List.map_cons] at *
    by_cases h : m.name = n <;> simp [h, ih]

theorem hasMember_iff (ms : List Member) (n : String) :
    hasMember ms n = true ↔ n ∈ memberNames ms := by
  simp only [hasMember, memberNames, List.any_eq_true, List.mem_map, beq_iff_eq]

theorem mem_removeMember (ms : List Member) (n : String) (x : Member) :
    x ∈ removeMember ms n ↔ x ∈ ms ∧ x.name ≠ n := by
  simp [removeMember, List.mem_filter, bne_iff_ne]

theorem mem_updateTags (ms : List Member) (n : String) (f : List String → List String)
    (x : Member) :
    x ∈ updateTags ms n f ↔
      ∃ y ∈ ms, x = if y.name = n then { y with tags := f y.tags } else y := by
  simp [updateTags, List.mem_map, eq_comm]

theorem updateTags_eq_self (ms : List Member) (n : String) (f : List String → List String)
    (h : ∀ m ∈ ms, m.name = n → f m.tags = m.tags) : updateTags ms n f = ms := by
  induction ms with
  | nil => rfl
  | cons m ms ih =>
    have hms := ih fun x hx => h x (by simp [hx])
    simp only [updateTags, List.map_cons] at hms ⊢
    by_cases hm : m.name = n
    · rw [if_pos hm, h m (by simp) hm, hms]
    · rw [if_neg hm, hms]

theorem findName_eq_none (ms : List Member) (n : String) :
    findName ms n = none ↔ n ∉ memberNames ms := by
  simp [findName, List.find?_eq_none, memberNames, List.mem_map, beq_iff_eq]

theorem mem_of_findName (ms : List Member) (n : String) (m : Member)
    (h : findName ms n = some m) : m ∈ ms ∧ m.name = n := by
  refine ⟨List.mem_of_find?_eq_some h, ?_⟩
  have := List.find?_some h
  simpa [beq_iff_eq] using this

theorem findName_append (ms1 ms2 : List Member) (n : String) :
    findName (ms1 ++ ms2) n =
      (findName ms1 n).elim (findName ms2 n) some := by
  induction ms1 with
  | nil => simp [findName]
  | cons m ms ih =>
    by_cases h : m.name = n
    · simp [findName, List.find?_cons, h]
    · simpa [findName, List.find?_cons, h, beq_iff_eq] using ih

theorem updateTags_keeps_name (m : Member) (n : String) (f : List String → List String) :
    ((if m.name = n then { m with tags := f m.tags } else m) : Member).name = m.name := by
  split <;> rfl

theorem findName_updateTags_ne (ms : List Member) (n x : String)
    (f : List String → List String) (h : x ≠ n) :
    findName (updateTags ms n f) x = findName ms x := by
  induction ms with
  | nil => rfl
  | cons m ms ih =>
    simp only [findName, updateTags, List.map_cons, List.find?_cons,
      updateTags_keeps_name] at ih ⊢
    cases hb : (m.name == x)
    · simp only [hb]
      exact ih
    · simp only [hb]
      have hmx : m.name = x := by simpa using hb
      have hmn : ¬ m.name = n := by rw [hmx]; exact h
      rw [if_neg hmn]

theorem findName_updateTags_self (ms : List Member) (n : String)
    (f : List String → List String) :
    findName (updateTags ms n f) n =
      (findName ms n).map (fun m => { m with tags := f m.tags }) := by
  induction ms with
  | nil => rfl
  | cons m ms ih =>
    by_cases hm : m.name = n
    · simp [findName, updateTags, List.find?_cons, hm, beq_iff_eq]
    · simp [findName, updateTags, List.find?_cons, hm, beq_iff_eq] at *
      exact ih

theorem findName_removeMember_ne (ms : List Member) (n x : String) (h : x ≠ n) :
    findName (removeMember ms n) x = findName ms x := by
  induction ms with
  | nil => rfl
  | cons m ms ih =>
    simp only [findName, removeMember, List.filter_cons] at ih ⊢
    by_cases hm : m.name = n
    · have hb : (m.name != n) = false := by simp [bne_iff_ne, hm]
      have hbx : (m.name == x) = false := by
        simp only [beq_eq_false_iff_ne, ne_eq, hm]
        exact fun hc => h hc.symm
      rw [hb, if_neg (by simp), ih, List.find?_cons, hbx]
    · have hb : (m.name != n) = true := by simp [bne_iff_ne, hm]
      rw [hb, if_pos rfl, List.find?_cons, List.find?_cons]
      cases hbx : (m.name == x)
      · simp only [hbx]
        exact ih
      · simp only [hbx]

theorem findName_removeMember_self (ms : List Member) (n : String) :
    findName (removeMember ms n) n = none := by
  rw [findName_eq_none, memberNames_removeMember]
  simp [List.mem_filter]

theorem findName_of_nodup_mem (ms : List Member) (m : Member)
    (hnd : (memberNames ms).Nodup) (hm : m ∈ ms) : findName ms m.name = some m := by
  induction ms with
  | nil => simp at hm
  | cons x ms ih =>
    rcases List.mem_cons.1 hm with rfl | hm'
    · simp [findName, List.find?_cons]
    · by_cases hx : x.name = m.name
      · exfalso
        simp only [memberNames, List.map_cons, List.nodup_cons] at hnd
        exact hnd.1 (hx ▸ List.mem_map_of_mem Member.name hm')
      · simp only [memberNames, List.map_cons, List.nodup_cons] at hnd
        simpa [findName, List.find?_cons, beq_iff_eq, hx] using ih hnd.2 hm'

/-! ### Lemmas about jsSetDedup and jsInsertAfter -/

theorem dedupGo_nodup (l acc : List String) (h : acc.Nodup) :
    (l.foldl (fun acc t => if t ∈ acc then acc else acc ++ [t]) acc).Nodup := by
  induction l generalizing acc with
  | nil => simpa
  | cons t l ih =>
    simp only [List.foldl_cons]
    by_cases ht : t ∈ acc
    · rw [if_pos ht]
      exact ih acc h
    · rw [if_neg ht]
      refine ih _ ?_
      simp [List.nodup_append, h, ht]

theorem dedupGo_mem (l acc : List String) (x : String) :
    x ∈ l.foldl (fun acc t => if t ∈ acc then acc else acc ++ [t]) acc ↔
      x ∈ acc ∨ x ∈ l := by
  induction l generalizing acc with
  | nil => simp
  | cons t l ih =>
    simp only [List.foldl_cons]
    by_cases ht : t ∈ acc
    · rw [if_pos ht, ih]
      constructor
      · rintro (hx | hx)
        · exact Or.inl hx
        · exact Or.inr (List.mem_cons_of_mem _ hx)
      · rintro (hx | hx)
        · exact Or.inl hx
        · rcases List.mem_cons.1 hx with rfl | hx
          · exact Or.inl ht
          · exact Or.inr hx
    · rw [if_neg ht, ih]
      simp only [List.mem_append, List.mem_singleton, List.mem_cons]
      tauto

theorem dedupGo_eq_append (l acc : List String) (hl : l.Nodup)
    (hd : ∀ x ∈ l, x ∉ acc) :
    l.foldl (fun acc t => if t ∈ acc then acc else acc ++ [t]) acc = acc ++ l := by
  induction l generalizing acc with
  | nil => simp
  | cons t l ih =>
    simp only [List.foldl_cons]
    rw [if_neg (hd t (by simp))]
    rw [ih _ (List.nodup_cons.1 hl).2]
    · simp
    · intro x hx
      simp only [List.mem_append, List.mem_singleton]
      rintro (hxa | rfl)
      · exact hd x (List.mem_cons_of_mem _ hx) hxa
      · exact (List.nodup_cons.1 hl).1 hx

theorem jsSetDedup_nodup (l : List String) : (jsSetDedup l).Nodup :=
  dedupGo_nodup l [] (by simp)

theorem mem_jsSetDedup (l : List String) (x : String) :
    x ∈ jsSetDedup l ↔ x ∈ l := by
  simp [jsSetDedup, dedupGo_mem]

theorem jsSetDedup_eq_self (l : List String) (h : l.Nodup) : jsSetDedup l = l := by
  simpa [jsSetDedup] using dedupGo_eq_append l [] h (by simp)

theorem jsSetDedup_ne_nil (l : List String) (h : l ≠ []) : jsSetDedup l ≠ [] := by
  rcases List.exists_mem_of_ne_nil l h with ⟨x, hx⟩
  intro h0
  have := (mem_jsSetDedup l x).2 hx
  rw [h0] at this
  simp at this

theorem mem_insertAfterFirst (l : List String) (o n x : String) :
    x ∈ insertAfterFirst l o n ↔ x ∈ l ∨ x = n := by
  induction l with
  | nil => simp [insertAfterFirst]
  | cons y l ih =>
    simp only [insertAfterFirst]
    by_cases hy : y = o
    · rw [if_pos hy]
      simp only [List.mem_cons]
      tauto
    · rw [if_neg hy]
      simp only [List.mem_cons, ih]
      tauto

theorem insertAfterFirst_nodup (l : List String) (o n : String)
    (hl : l.Nodup) (hn : n ∉ l) (hno : n ≠ o) :
    (insertAfterFirst l o n).Nodup := by
  induction l with
  | nil => simp [insertAfterFirst]
  | cons y l ih =>
    simp only [insertAfterFirst]
    rcases List.nodup_cons.1 hl with ⟨hyl, hl'⟩
    have hn' : n ∉ l := fun hc => hn (List.mem_cons_of_mem _ hc)
    have hny : n ≠ y := fun hc => hn (hc ▸ List.mem_cons_self y l)
    by_cases hy : y = o
    · rw [if_pos hy]
      refine List.nodup_cons.2 ⟨?_, List.nodup_cons.2 ⟨hn', hl'⟩⟩
      simp only [List.mem_cons]
      rintro (rfl | hc)
      · exact hny rfl
      · exact hyl hc
    · rw [if_neg hy]
      refine List.nodup_cons.2 ⟨?_, ih hl' hn'⟩
      rw [mem_insertAfterFirst]
      rintro (hc | rfl)
      · exact hyl hc
      · exact hny rfl

theorem insertAfterFirst_decomp (l1 l2 : List String) (o n : String) (h : o ∉ l1) :
    insertAfterFirst (l1 ++ o :: l2) o n = l1 ++ o :: n :: l2 := by
  induction l1 with
  | nil => simp [insertAfterFirst]
  | cons y l1 ih =>
    have hy : y ≠ o := fun hc => h (hc ▸ List.mem_cons_self y l1)
    simp only [List.cons_append, insertAfterFirst, if_neg hy]
    exact congrArg (y :: ·) (ih fun hc => h (List.mem_cons_of_mem _ hc))

theorem mem_jsInsertAfter (l : List String) (o n x : String) :
    x ∈ jsInsertAfter l o n ↔ x ∈ l ∨ x = n := by
  unfold jsInsertAfter
  by_cases ho : o ∈ l
  · rw [if_pos ho, mem_insertAfterFirst]
  · rw [if_neg ho]
    simp only [List.mem_cons]
    tauto

theorem jsInsertAfter_nodup (l : List String) (o n : String)
    (hl : l.Nodup) (hn : n ∉ l) (hno : n ≠ o) :
    (jsInsertAfter l o n).Nodup := by
  unfold jsInsertAfter
  by_cases ho : o ∈ l
  · rw [if_pos ho]
    exact insertAfterFirst_nodup l o n hl hn hno
  · rw [if_neg ho]
    exact List.nodup_cons.2 ⟨hn, hl⟩

theorem filter_bne_of_not_mem (l : List String) (a : String) (h : a ∉ l) :
    l.filter (fun x => x != a) = l := by
  rw [List.filter_eq_self]
  intro x hx
  simp only [bne_iff_ne, ne_eq]
  rintro rfl
  exact h hx

/-! ### Structural characterization of the dropdown transition -/

theorem findName_append_some (ms1 ms2 : List Member) (n : String) (m : Member)
    (h : findName ms1 n = some m) : findName (ms1 ++ ms2) n = some m := by
  rw [findName_append, h]
  rfl

theorem findName_append_none (ms1 ms2 : List Member) (n : String)
    (h : findName ms1 n = none) : findName (ms1 ++ ms2) n = findName ms2 n := by
  rw [findName_append, h]
  rfl

theorem newMemberInfo_name (roster : Roster) (l : List String) (n : String) :
    (newMemberInfo roster l n).name = n := by
  induction l with
  | nil => rfl
  | cons tg rest ih =>
    simp only [newMemberInfo]
    by_cases hb : isBlankTag tg
    · simp [hb, ih]
    · simp only [hb, Bool.false_eq_true, if_false]
      cases (roster tg).find? (fun p => p.name == n) with
      | none => exact ih
      | some p => rfl

theorem newMemberInfo_tags (roster : Roster) (l : List String) (n : String) :
    (newMemberInfo roster l n).tags = [] := by
  induction l with
  | nil => rfl
  | cons tg rest ih =>
    simp only [newMemberInfo]
    by_cases hb : isBlankTag tg
    · simp [hb, ih]
    · simp only [hb, Bool.false_eq_true, if_false]
      cases (roster tg).find? (fun p => p.name == n) with
      | none => exact ih
      | some p => rfl

theorem dropdown_eq_explicit (roster : Roster) (s : TeamState) (src dest : String)
    (m : Member) (hWF : WF s) (hm : findName s.members src = some m) (hne : dest ≠ "")
    (hds : dest ≠ src) :
    dropdownMove roster s src dest =
      (let mv := tagsToMove roster m.tags dest
       let rem := m.tags.filter (fun tg => !(mv.contains tg))
       let ms1 := updateTags s.members src (fun tgs => tgs.filter (fun tg => !(mv.contains tg)))
       let ms2 := if dest ∈ memberNames s.members then ms1
                  else ms1 ++ [newMemberInfo roster mv dest]
       let ord2 := if dest ∈ memberNames s.members then s.order
                   else jsInsertAfter s.order src dest
       let fil := mv.filter (fun tg => !(isBlankTag tg))
       let ms3 := updateTags ms2 dest (fun tgs => jsSetDedup (tgs ++ fil))
       some { order := if rem = [] then ord2.filter (fun x => x != src) else ord2,
              members := if rem = [] then removeMember ms3 src else ms3 }) := by
  obtain ⟨hOrd, hNm, hON, hNO⟩ := hWF
  obtain ⟨hmMem, hmName⟩ := mem_of_findName _ _ _ hm
  have hfind1 : findName
      (updateTags s.members src
        (fun tgs => tgs.filter (fun tg => !((tagsToMove roster m.tags dest).contains tg)))) src =
      some { m with
        tags := m.tags.filter (fun tg => !((tagsToMove roster m.tags dest).contains tg)) } := by
    rw [findName_updateTags_self, hm]
    rfl
  have hnames1 : memberNames
      (updateTags s.members src
        (fun tgs => tgs.filter (fun tg => !((tagsToMove roster m.tags dest).contains tg)))) =
      memberNames s.members := memberNames_updateTags _ _ _
  unfold dropdownMove
  rw [if_neg hne, hm]
  by_cases hdm : dest ∈ memberNames s.members
  · have hHM : hasMember
        (updateTags s.members src
          (fun tgs => tgs.filter (fun tg => !((tagsToMove roster m.tags dest).contains tg)))) dest
        = true := by
      rw [hasMember_iff, hnames1]
      exact hdm
    have hfind3 : findName
        (updateTags
          (updateTags s.members src
            (fun tgs => tgs.filter (fun tg => !((tagsToMove roster m.tags dest).contains tg))))
          dest
          (fun tgs => jsSetDedup (tgs ++ (tagsToMove roster m.tags dest).filter
            (fun tg => !(isBlankTag tg))))) src =
        some { m with
          tags := m.tags.filter (fun tg => !((tagsToMove roster m.tags dest).contains tg)) } := by
      rw [findName_updateTags_ne _ _ _ _ (Ne.symm hds)]
      exact hfind1
    simp only [hHM, Bool.not_true, Bool.false_eq_true, if_false, if_pos hdm, hfind3]
    by_cases hrem : m.tags.filter
        (fun tg => !((tagsToMove roster m.tags dest).contains tg)) = []
    · simp only [hrem, List.isEmpty_nil, if_pos rfl, if_true]
      congr 1
      refine congrArg₂ _ ?_ rfl
      exact jsSetDedup_eq_self _ (hOrd.filter _)
    · have hremE : (m.tags.filter
          (fun tg => !((tagsToMove roster m.tags dest).contains tg))).isEmpty = false := by
        rw [List.isEmpty_eq_false_iff_exists_mem]
        rcases List.exists_mem_of_ne_nil _ hrem with ⟨x, hx⟩
        exact ⟨x, hx⟩
      simp only [hremE, Bool.false_eq_true, if_false, if_neg hrem]
      congr 1
      refine congrArg₂ _ ?_ rfl
      exact jsSetDedup_eq_self _ hOrd
  · have hHM : hasMember
        (updateTags s.members src
          (fun tgs => tgs.filter (fun tg => !((tagsToMove roster m.tags dest).contains tg)))) dest
        = false := by
      rw [← Bool.not_eq_true, hasMember_iff, hnames1]
      exact hdm
    have hdorder : dest ∉ s.order := fun hc => hdm (hON dest hc)
    have hsrcOrder : src ∈ s.order := hNO src (hmName ▸ List.mem_map_of_mem Member.name hmMem)
    have hfind3 : findName
        (updateTags
          ((updateTags s.members src
            (fun tgs => tgs.filter (fun tg => !((tagsToMove roster m.tags dest).contains tg))))
           ++ [newMemberInfo roster (tagsToMove roster m.tags dest) dest])
          dest
          (fun tgs => jsSetDedup (tgs ++ (tagsToMove roster m.tags dest).filter
            (fun tg => !(isBlankTag tg))))) src =
        some { m with
          tags := m.tags.filter (fun tg => !((tagsToMove roster m.tags dest).contains tg)) } := by
      rw [findName_updateTags_ne _ _ _ _ (Ne.symm hds)]
      exact findName_append_some _ _ _ _ hfind1
    simp only [hHM, Bool.not_false, if_true, if_neg hdm, hfind3]
    have hnodup2 : (jsInsertAfter s.order src dest).Nodup :=
      jsInsertAfter_nodup _ _ _ hOrd hdorder hds
    by_cases hrem : m.tags.filter
        (fun tg => !((tagsToMove roster m.tags dest).contains tg)) = []
    · simp only [hrem, List.isEmpty_nil, if_pos rfl, if_true]
      congr 1
      refine congrArg₂ _ ?_ rfl
      exact jsSetDedup_eq_self _ (hnodup2.filter _)
    · have hremE : (m.tags.filter
          (fun tg => !((tagsToMove roster m.tags dest).contains tg))).isEmpty = false := by
        rw [List.isEmpty_eq_false_iff_exists_mem]
        rcases List.exists_mem_of_ne_nil _ hrem with ⟨x, hx⟩
        exact ⟨x, hx⟩
      simp only [hremE, Bool.false_eq_true, if_false, if_neg hrem]
      congr 1
      refine congrArg₂ _ ?_ rfl
      exact jsSetDedup_eq_self _ hnodup2

theorem findName_append_single_ne (ms1 : List Member) (mm : Member) (x : String)
    (h : mm.name ≠ x) : findName (ms1 ++ [mm]) x = findName ms1 x := by
  rw [findName_append]
  cases hf : findName ms1 x with
  | some y => rfl
  | none =>
    have hb : (mm.name == x) = false := by
      simp only [beq_eq_false_iff_ne, ne_eq]
      exact h
    simp [Option.elim, findName, List.find?, hb]

theorem dropdown_src_after (roster : Roster) (s : TeamState) (src dest : String)
    (m : Member) (s' : TeamState) (hWF : WF s) (hm : findName s.members src = some m)
    (hne : dest ≠ "") (hds : dest ≠ src)
    (hs' : dropdownMove roster s src dest = some s') :
    findName s'.members src =
      if m.tags.filter (fun tg => !((tagsToMove roster m.tags dest).contains tg)) = []
      then none
      else some { m with
        tags := m.tags.filter (fun tg => !((tagsToMove roster m.tags dest).contains tg)) } := by
  rw [dropdown_eq_explicit roster s src dest m hWF hm hne hds] at hs'
  simp only [Option.some.injEq] at hs'
  subst hs'
  have hfind1 : findName
      (updateTags s.members src
        (fun tgs => tgs.filter (fun tg => !((tagsToMove roster m.tags dest).contains tg)))) src =
      some { m with
        tags := m.tags.filter (fun tg => !((tagsToMove roster m.tags dest).contains tg)) } := by
    rw [findName_updateTags_self, hm]
    rfl
  by_cases hrem : m.tags.filter
      (fun tg => !((tagsToMove roster m.tags dest).contains tg)) = []
  · simp only [hrem, if_pos rfl, if_true]
    exact findName_removeMember_self _ _
  · simp only [if_neg hrem]
    rw [findName_updateTags_ne _ _ _ _ (Ne.symm hds)]
    by_cases hdm : dest ∈ memberNames s.members
    · simp only [if_pos hdm]
      exact hfind1
    · simp only [if_neg hdm]
      exact findName_append_some _ _ _ _ hfind1

theorem dropdown_other_after (roster : Roster) (s : TeamState) (src dest : String)
    (m : Member) (s' : TeamState) (x : String) (hWF : WF s)
    (hm : findName s.members src = some m) (hne : dest ≠ "") (hds : dest ≠ src)
    (hxs : x ≠ src) (hxd : x ≠ dest)
    (hs' : dropdownMove roster s src dest = some s') :
    findName s'.members x = findName s.members x := by
  rw [dropdown_eq_explicit roster s src dest m hWF hm hne hds] at hs'
  simp only [Option.some.injEq] at hs'
  subst hs'
  have step1 : findName
      (updateTags s.members src
        (fun tgs => tgs.filter (fun tg => !((tagsToMove roster m.tags dest).contains tg)))) x =
      findName s.members x := findName_updateTags_ne _ _ _ _ hxs
  have step2 : ∀ ms2 : List Member,
      findName ms2 x = findName s.members x →
      findName (updateTags ms2 dest
        (fun tgs => jsSetDedup (tgs ++ (tagsToMove roster m.tags dest).filter
          (fun tg => !(isBlankTag tg))))) x = findName s.members x := by
    intro ms2 h2
    rw [findName_updateTags_ne _ _ _ _ hxd]
    exact h2
  have hnew : (newMemberInfo roster (tagsToMove roster m.tags dest) dest).name ≠ x := by
    rw [newMemberInfo_name]
    exact fun hc => hxd hc.symm
  by_cases hrem : m.tags.filter
      (fun tg => !((tagsToMove roster m.tags dest).contains tg)) = []
  · simp only [hrem, if_pos rfl, if_true]
    rw [findName_removeMember_ne _ _ _ hxs]
    by_cases hdm : dest ∈ memberNames s.members
    · simp only [if_pos hdm]
      exact step2 _ step1
    · simp only [if_neg hdm]
      refine step2 _ ?_
      rw [findName_append_single_ne _ _ _ hnew]
      exact step1
  · simp only [if_neg hrem]
    by_cases hdm : dest ∈ memberNames s.members
    · simp only [if_pos hdm]
      exact step2 _ step1
    · simp only [if_neg hdm]
      refine step2 _ ?_
      rw [findName_append_single_ne _ _ _ hnew]
      exact step1

theorem dropdown_dest_after (roster : Roster) (s : TeamState) (src dest : String)
    (m : Member) (s' : TeamState) (hWF : WF s) (hm : findName s.members src = some m)
    (hne : dest ≠ "") (hds : dest ≠ src)
    (hs' : dropdownMove roster s src dest = some s') :
    findName s'.members dest =
      some (match findName s.members dest with
        | some d => { d with
            tags := jsSetDedup (d.tags ++ (tagsToMove roster m.tags dest).filter
              (fun tg => !(isBlankTag tg))) }
        | none => { newMemberInfo roster (tagsToMove roster m.tags dest) dest with
            tags := jsSetDedup ((tagsToMove roster m.tags dest).filter
              (fun tg => !(isBlankTag tg))) }) := by
  rw [dropdown_eq_explicit roster s src dest m hWF hm hne hds] at hs'
  simp only [Option.some.injEq] at hs'
  subst hs'
  have step1 : findName
      (updateTags s.members src
        (fun tgs => tgs.filter (fun tg => !((tagsToMove roster m.tags dest).contains tg)))) dest =
      findName s.members dest := findName_updateTags_ne _ _ _ _ hds
  have core : findName
      (updateTags
        (if dest ∈ memberNames s.members then
          updateTags s.members src
            (fun tgs => tgs.filter (fun tg => !((tagsToMove roster m.tags dest).contains tg)))
        else
          updateTags s.members src
            (fun tgs => tgs.filter (fun tg => !((tagsToMove roster m.tags dest).contains tg)))
          ++ [newMemberInfo roster (tagsToMove roster m.tags dest) dest])
        dest
        (fun tgs => jsSetDedup (tgs ++ (tagsToMove roster m.tags dest).filter
          (fun tg => !(isBlankTag tg))))) dest =
      some (match findName s.members dest with
        | some d => { d with
            tags := jsSetDedup (d.tags ++ (tagsToMove roster m.tags dest).filter
              (fun tg => !(isBlankTag tg))) }
        | none => { newMemberInfo roster (tagsToMove roster m.tags dest) dest with
            tags := jsSetDedup ((tagsToMove roster m.tags dest).filter
              (fun tg => !(isBlankTag tg))) }) := by
    rw [findName_updateTags_self]
    by_cases hdm : dest ∈ memberNames s.members
    · simp only [if_pos hdm]
      rw [step1]
      cases hfd : findName s.members dest with
      | none =>
        exfalso
        exact ((findName_eq_none _ _).1 hfd) hdm
      | some d => rfl
    · simp only [if_neg hdm]
      have h1 : findName
          (updateTags s.members src
            (fun tgs => tgs.filter (fun tg => !((tagsToMove roster m.tags dest).contains tg)))) dest
          = none := by
        rw [step1]
        exact (findName_eq_none _ _).2 hdm
      rw [findName_append_none _ _ _ h1]
      have hfd : findName s.members dest = none := (findName_eq_none _ _).2 hdm
      rw [hfd]
      have hone : findName [newMemberInfo roster (tagsToMove roster m.tags dest) dest] dest =
          some (newMemberInfo roster (tagsToMove roster m.tags dest) dest) := by
        simp [findName, List.find?, beq_iff_eq, newMemberInfo_name]
      rw [hone]
      have htg : (newMemberInfo roster (tagsToMove roster m.tags dest) dest).tags = [] :=
        newMemberInfo_tags _ _ _
      simp [Option.map_some', htg]
  by_cases hrem : m.tags.filter
      (fun tg => !((tagsToMove roster m.tags dest).contains tg)) = []
  · simp only [hrem, if_pos rfl, if_true]
    rw [findName_removeMember_ne _ _ _ hds]
    exact core
  · simp only [if_neg hrem]
    exact core

theorem dropdown_order_after (roster : Roster) (s : TeamState) (src dest : String)
    (m : Member) (s' : TeamState) (hWF : WF s) (hm : findName s.members src = some m)
    (hne : dest ≠ "") (hds : dest ≠ src)
    (hs' : dropdownMove roster s src dest = some s') :
    s'.order =
      if m.tags.filter (fun tg => !((tagsToMove roster m.tags dest).contains tg)) = []
      then (if dest ∈ memberNames s.members then s.order
            else jsInsertAfter s.order src dest).filter (fun x => x != src)
      else (if dest ∈ memberNames s.members then s.order
            else jsInsertAfter s.order src dest) := by
  rw [dropdown_eq_explicit roster s src dest m hWF hm hne hds] at hs'
  simp only [Option.some.injEq] at hs'
  subst hs'
  rfl

theorem dropdown_names_after (roster : Roster) (s : TeamState) (src dest : String)
    (m : Member) (s' : TeamState) (hWF : WF s) (hm : findName s.members src = some m)
    (hne : dest ≠ "") (hds : dest ≠ src)
    (hs' : dropdownMove roster s src dest = some s') :
    memberNames s'.members =
      if m.tags.filter (fun tg => !((tagsToMove roster m.tags dest).contains tg)) = []
      then (if dest ∈ memberNames s.members then memberNames s.members
            else memberNames s.members ++ [dest]).filter (fun x => x != src)
      else (if dest ∈ memberNames s.members then memberNames s.members
            else memberNames s.members ++ [dest]) := by
  rw [dropdown_eq_explicit roster s src dest m hWF hm hne hds] at hs'
  simp only [Option.some.injEq] at hs'
  subst hs'
  have hbase : ∀ ms2 : List Member,
      memberNames (updateTags ms2 dest
        (fun tgs => jsSetDedup (tgs ++ (tagsToMove roster m.tags dest).filter
          (fun tg => !(isBlankTag tg))))) = memberNames ms2 :=
    fun ms2 => memberNames_updateTags _ _ _
  have hn1 : memberNames
      (updateTags s.members src
        (fun tgs => tgs.filter (fun tg => !((tagsToMove roster m.tags dest).contains tg)))) =
      memberNames s.members := memberNames_updateTags _ _ _
  have hn2 : memberNames
      ((updateTags s.members src
        (fun tgs => tgs.filter (fun tg => !((tagsToMove roster m.tags dest).contains tg))))
        ++ [newMemberInfo roster (tagsToMove roster m.tags dest) dest]) =
      memberNames s.members ++ [dest] := by
    rw [memberNames_append, hn1]
    simp [memberNames, newMemberInfo_name]
  by_cases hrem : m.tags.filter
      (fun tg => !((tagsToMove roster m.tags dest).contains tg)) = []
  · simp only [hrem, if_pos rfl, if_true]
    rw [memberNames_removeMember]
    by_cases hdm : dest ∈ memberNames s.members
    · simp only [if_pos hdm, hbase, hn1]
    · simp only [if_neg hdm, hbase, hn2]
  · simp only [if_neg hrem]
    by_cases hdm : dest ∈ memberNames s.members
    · simp only [if_pos hdm, hbase, hn1]
    · simp only [if_neg hdm, hbase, hn2]

theorem dropdown_WF_after (roster : Roster) (s : TeamState) (src dest : String)
    (m : Member) (s' : TeamState) (hWF : WF s) (hm : findName s.members src = some m)
    (hne : dest ≠ "") (hds : dest ≠ src)
    (hs' : dropdownMove roster s src dest = some s') : WF s' := by
  have hordf := dropdown_order_after roster s src dest m s' hWF hm hne hds hs'
  have hnamesf := dropdown_names_after roster s src dest m s' hWF hm hne hds hs'
  obtain ⟨hOrd, hNm, hON, hNO⟩ := hWF
  have hdnO : dest ∉ memberNames s.members → dest ∉ s.order := fun hdm hc => hdm (hON dest hc)
  have hOrd2 : ∀ hdm : dest ∉ memberNames s.members, (jsInsertAfter s.order src dest).Nodup :=
    fun hdm => jsInsertAfter_nodup _ _ _ hOrd (hdnO hdm) hds
  have hNm2 : dest ∉ memberNames s.members → (memberNames s.members ++ [dest]).Nodup := by
    intro hdm
    simp [List.nodup_append, hNm, hdm]
  refine ⟨?_, ?_, ?_, ?_⟩
  · rw [hordf]
    by_cases hrem : m.tags.filter
        (fun tg => !((tagsToMove roster m.tags dest).contains tg)) = [] <;>
      by_cases hdm : dest ∈ memberNames s.members <;>
      simp only [hrem, hdm, if_pos, if_neg, if_true, if_false] <;>
      first
        | exact hOrd
        | exact hOrd.filter _
        | exact hOrd2 (by assumption)
        | exact (hOrd2 (by assumption)).filter _
  · rw [hnamesf]
    by_cases hrem : m.tags.filter
        (fun tg => !((tagsToMove roster m.tags dest).contains tg)) = [] <;>
      by_cases hdm : dest ∈ memberNames s.members <;>
      simp only [hrem, hdm, if_pos, if_neg, if_true, if_false] <;>
      first
        | exact hNm
        | exact hNm.filter _
        | exact hNm2 (by assumption)
        | exact (hNm2 (by assumption)).filter _
  · intro n hn
    rw [hordf] at hn
    rw [hnamesf]
    by_cases hrem : m.tags.filter
        (fun tg => !((tagsToMove roster m.tags dest).contains tg)) = []
    · rw [if_pos hrem] at hn ⊢
      rw [List.mem_filter] at hn ⊢
      refine ⟨?_, hn.2⟩
      by_cases hdm : dest ∈ memberNames s.members
      · rw [if_pos hdm] at hn ⊢
        exact hON n hn.1
      · rw [if_neg hdm] at hn ⊢
        have := (mem_jsInsertAfter _ _ _ _).1 hn.1
        simp only [List.mem_append, List.mem_singleton]
        rcases this with h | h
        · exact Or.inl (hON n h)
        · exact Or.inr h
    · rw [if_neg hrem] at hn ⊢
      by_cases hdm : dest ∈ memberNames s.members
      · rw [if_pos hdm] at hn ⊢
        exact hON n hn
      · rw [if_neg hdm] at hn ⊢
        have := (mem_jsInsertAfter _ _ _ _).1 hn
        simp only [List.mem_append, List.mem_singleton]
        rcases this with h | h
        · exact Or.inl (hON n h)
        · exact Or.inr h
  · intro n hn
    rw [hnamesf] at hn
    rw [hordf]
    by_cases hrem : m.tags.filter
        (fun tg => !((tagsToMove roster m.tags dest).contains tg)) = []
    · rw [if_pos hrem] at hn ⊢
      rw [List.mem_filter] at hn ⊢
      refine ⟨?_, hn.2⟩
      by_cases hdm : dest ∈ memberNames s.members
      · rw [if_pos hdm] at hn ⊢
        exact hNO n hn.1
      · rw [if_neg hdm] at hn ⊢
        rw [mem_jsInsertAfter]
        rcases List.mem_append.1 hn.1 with h | h
        · exact Or.inl (hNO n h)
        · exact Or.inr (List.mem_singleton.1 h)
    · rw [if_neg hrem] at hn ⊢
      by_cases hdm : dest ∈ memberNames s.members
      · rw [if_pos hdm] at hn ⊢
        exact hNO n hn
      · rw [if_neg hdm] at hn ⊢
        rw [mem_jsInsertAfter]
        rcases List.mem_append.1 hn with h | h
        · exact Or.inl (hNO n h)
        · exact Or.inr (List.mem_singleton.1 h)

theorem dropdown_tagsWF_after (roster : Roster) (s : TeamState) (src dest : String)
    (m : Member) (s' : TeamState) (hWF : WF s) (hT : TagsWF s)
    (hm : findName s.members src = some m) (hne : dest ≠ "") (hds : dest ≠ src)
    (hs' : dropdownMove roster s src dest = some s') : TagsWF s' := by
  rw [dropdown_eq_explicit roster s src dest m hWF hm hne hds] at hs'
  simp only [Option.some.injEq] at hs'
  subst hs'
  have hms1 : ∀ y ∈ updateTags s.members src
      (fun tgs => tgs.filter (fun tg => !((tagsToMove roster m.tags dest).contains tg))),
      y.tags.Nodup := by
    intro y hy
    rcases (mem_updateTags _ _ _ _).1 hy with ⟨z, hz, hyz⟩
    by_cases hzn : z.name = src
    · rw [hyz, if_pos hzn]
      exact (hT z hz).filter _
    · rw [hyz, if_neg hzn]
      exact hT z hz
  have hms2 : ∀ y ∈ (if dest ∈ memberNames s.members then
      updateTags s.members src
        (fun tgs => tgs.filter (fun tg => !((tagsToMove roster m.tags dest).contains tg)))
    else
      updateTags s.members src
        (fun tgs => tgs.filter (fun tg => !((tagsToMove roster m.tags dest).contains tg)))
      ++ [newMemberInfo roster (tagsToMove roster m.tags dest) dest]),
      y.tags.Nodup := by
    intro y hy
    by_cases hdm : dest ∈ memberNames s.members
    · rw [if_pos hdm] at hy
      exact hms1 y hy
    · rw [if_neg hdm] at hy
      rcases List.mem_append.1 hy with hy1 | hy1
      · exact hms1 y hy1
      · rcases List.mem_singleton.1 hy1 with rfl
        rw [newMemberInfo_tags]
        exact List.nodup_nil
  have hms3 : ∀ y ∈ updateTags (if dest ∈ memberNames s.members then
      updateTags s.members src
        (fun tgs => tgs.filter (fun tg => !((tagsToMove roster m.tags dest).contains tg)))
    else
      updateTags s.members src
        (fun tgs => tgs.filter (fun tg => !((tagsToMove roster m.tags dest).contains tg)))
      ++ [newMemberInfo roster (tagsToMove roster m.tags dest) dest]) dest
      (fun tgs => jsSetDedup (tgs ++ (tagsToMove roster m.tags dest).filter
        (fun tg => !(isBlankTag tg)))),
      y.tags.Nodup := by
    intro y hy
    rcases (mem_updateTags _ _ _ _).1 hy with ⟨z, hz, hyz⟩
    by_cases hzn : z.name = dest
    · rw [hyz, if_pos hzn]
      exact jsSetDedup_nodup _
    · rw [hyz, if_neg hzn]
      exact hms2 z hz
  intro y hy
  by_cases hrem : m.tags.filter
      (fun tg => !((tagsToMove roster m.tags dest).contains tg)) = []
  · simp only [hrem, if_pos rfl, if_true] at hy
    exact hms3 y ((mem_removeMember _ _ _).1 hy).1
  · simp only [if_neg hrem] at hy
    exact hms3 y hy

/-! ### Structural characterization of the swap transition -/

theorem swapNewMember_name (roster : Roster) (tag n : String) :
    (swapNewMember roster tag n).name = n := by
  unfold swapNewMember
  cases (roster tag).find? (fun p => p.name == n) <;> rfl

theorem swapNewMember_tags (roster : Roster) (tag n : String) :
    (swapNewMember roster tag n).tags = [] := by
  unfold swapNewMember
  cases (roster tag).find? (fun p => p.name == n) <;> rfl

theorem swap_noop_none (roster : Roster) (s : TeamState) (p tag : String)
    (hold : firstHolder s.members tag = none) : swapMove roster s p tag = s := by
  unfold swapMove
  rw [hold]

theorem swap_noop_self (roster : Roster) (s : TeamState) (p tag : String) (om : Member)
    (hold : firstHolder s.members tag = some om) (hp : p = om.name) :
    swapMove roster s p tag = s := by
  unfold swapMove
  rw [hold]
  simp only [if_pos hp]

theorem dropdown_noop_empty (roster : Roster) (s : TeamState) (src : String) :
    dropdownMove roster s src "" = some s := by
  unfold dropdownMove
  rw [if_pos rfl]

theorem dropdown_none_of_missing (roster : Roster) (s : TeamState) (src dest : String)
    (hne : dest ≠ "") (h : findName s.members src = none) :
    dropdownMove roster s src dest = none := by
  unfold dropdownMove
  rw [if_neg hne, h]

theorem swap_eq_explicit (roster : Roster) (s : TeamState) (p tag : String)
    (om : Member) (hWF : WF s) (hold : firstHolder s.members tag = some om)
    (hp : p ≠ om.name) :
    swapMove roster s p tag =
      (let rem := om.tags.filter (fun tg => tg != tag)
       let ms1 := updateTags s.members om.name (fun tgs => tgs.filter (fun tg => tg != tag))
       let ms2 := if p ∈ memberNames s.members then ms1 else ms1 ++ [swapNewMember roster tag p]
       let ord2 := if p ∈ memberNames s.members then s.order
                   else jsInsertAfter s.order om.name p
       let ms3 := updateTags ms2 p (fun tgs => tgs ++ [tag])
       { order := if rem = [] then ord2.filter (fun x => x != om.name) else ord2,
         members := if rem = [] then removeMember ms3 om.name else ms3 }) := by
  obtain ⟨hOrd, hNm, hON, hNO⟩ := hWF
  have homMem : om ∈ s.members := List.mem_of_find?_eq_some hold
  have homName : findName s.members om.name = some om := findName_of_nodup_mem _ _ hNm homMem
  have hfind1 : findName
      (updateTags s.members om.name (fun tgs => tgs.filter (fun tg => tg != tag))) om.name =
      some { om with tags := om.tags.filter (fun tg => tg != tag) } := by
    rw [findName_updateTags_self, homName]
    rfl
  have hnames1 : memberNames
      (updateTags s.members om.name (fun tgs => tgs.filter (fun tg => tg != tag))) =
      memberNames s.members := memberNames_updateTags _ _ _
  unfold swapMove
  rw [hold]
  simp only [if_neg hp]
  by_cases hpm : p ∈ memberNames s.members
  · have hHM : hasMember
        (updateTags s.members om.name (fun tgs => tgs.filter (fun tg => tg != tag))) p = true := by
      rw [hasMember_iff, hnames1]
      exact hpm
    have hfind3 : findName
        (updateTags
          (updateTags s.members om.name (fun tgs => tgs.filter (fun tg => tg != tag)))
          p (fun tgs => tgs ++ [tag])) om.name =
        some { om with tags := om.tags.filter (fun tg => tg != tag) } := by
      rw [findName_updateTags_ne _ _ _ _ (Ne.symm hp)]
      exact hfind1
    simp only [hHM, Bool.not_true, Bool.false_eq_true, if_false, if_pos hpm, hfind3]
    by_cases hrem : om.tags.filter (fun tg => tg != tag) = []
    · simp only [hrem, List.isEmpty_nil, if_pos rfl, if_true]
      congr 1
      exact jsSetDedup_eq_self _ (hOrd.filter _)
    · have hremE : (om.tags.filter (fun tg => tg != tag)).isEmpty = false := by
        rw [List.isEmpty_eq_false_iff_exists_mem]
        rcases List.exists_mem_of_ne_nil _ hrem with ⟨x, hx⟩
        exact ⟨x, hx⟩
      simp only [hremE, Bool.false_eq_true, if_false, if_neg hrem]
      congr 1
      exact jsSetDedup_eq_self _ hOrd
  · have hHM : hasMember
        (updateTags s.members om.name (fun tgs => tgs.filter (fun tg => tg != tag))) p
        = false := by
      rw [← Bool.not_eq_true, hasMember_iff, hnames1]
      exact hpm
    have hpO : p ∉ s.order := fun hc => hpm (hON p hc)
    have hfind3 : findName
        (updateTags
          ((updateTags s.members om.name (fun tgs => tgs.filter (fun tg => tg != tag)))
            ++ [swapNewMember roster tag p])
          p (fun tgs => tgs ++ [tag])) om.name =
        some { om with tags := om.tags.filter (fun tg => tg != tag) } := by
      rw [findName_updateTags_ne _ _ _ _ (Ne.symm hp)]
      exact findName_append_some _ _ _ _ hfind1
    simp only [hHM, Bool.not_false, if_true, if_neg hpm, hfind3]
    have hnodup2 : (jsInsertAfter s.order om.name p).Nodup :=
      jsInsertAfter_nodup _ _ _ hOrd hpO hp
    by_cases hrem : om.tags.filter (fun tg => tg != tag) = []
    · simp only [hrem, List.isEmpty_nil, if_pos rfl, if_true]
      congr 1
      exact jsSetDedup_eq_self _ (hnodup2.filter _)
    · have hremE : (om.tags.filter (fun tg => tg != tag)).isEmpty = false := by
        rw [List.isEmpty_eq_false_iff_exists_mem]
        rcases List.exists_mem_of_ne_nil _ hrem with ⟨x, hx⟩
        exact ⟨x, hx⟩
      simp only [hremE, Bool.false_eq_true, if_false, if_neg hrem]
      congr 1
      exact jsSetDedup_eq_self _ hnodup2

theorem swap_src_after (roster : Roster) (s : TeamState) (p tag : String)
    (om : Member) (hWF : WF s) (hold : firstHolder s.members tag = some om)
    (hp : p ≠ om.name) :
    findName (swapMove roster s p tag).members om.name =
      if om.tags.filter (fun tg => tg != tag) = [] then none
      else some { om with tags := om.tags.filter (fun tg => tg != tag) } := by
  rw [swap_eq_explicit roster s p tag om hWF hold hp]
  obtain ⟨hOrd, hNm, hON, hNO⟩ := hWF
  have homMem : om ∈ s.members := List.mem_of_find?_eq_some hold
  have homName : findName s.members om.name = some om := findName_of_nodup_mem _ _ hNm homMem
  have hfind1 : findName
      (updateTags s.members om.name (fun tgs => tgs.filter (fun tg => tg != tag))) om.name =
      some { om with tags := om.tags.filter (fun tg => tg != tag) } := by
    rw [findName_updateTags_self, homName]
    rfl
  by_cases hrem : om.tags.filter (fun tg => tg != tag) = []
  · simp only [hrem, if_pos rfl, if_true]
    exact findName_removeMember_self _ _
  · simp only [if_neg hrem]
    rw [findName_updateTags_ne _ _ _ _ (Ne.symm hp)]
    by_cases hpm : p ∈ memberNames s.members
    · simp only [if_pos hpm]
      exact hfind1
    · simp only [if_neg hpm]
      exact findName_append_some _ _ _ _ hfind1

theorem swap_other_after (roster : Roster) (s : TeamState) (p tag : String)
    (om : Member) (x : String) (hWF : WF s) (hold : firstHolder s.members tag = some om)
    (hp : p ≠ om.name) (hxo : x ≠ om.name) (hxp : x ≠ p) :
    findName (swapMove roster s p tag).members x = findName s.members x := by
  rw [swap_eq_explicit roster s p tag om hWF hold hp]
  have step1 : findName
      (updateTags s.members om.name (fun tgs => tgs.filter (fun tg => tg != tag))) x =
      findName s.members x := findName_updateTags_ne _ _ _ _ hxo
  have hnew : (swapNewMember roster tag p).name ≠ x := by
    rw [swapNewMember_name]
    exact fun hc => hxp hc.symm
  have step2 : ∀ ms2 : List Member,
      findName ms2 x = findName s.members x →
      findName (updateTags ms2 p (fun tgs => tgs ++ [tag])) x = findName s.members x := by
    intro ms2 h2
    rw [findName_updateTags_ne _ _ _ _ hxp]
    exact h2
  by_cases hrem : om.tags.filter (fun tg => tg != tag) = []
  · simp only [hrem, if_pos rfl, if_true]
    rw [findName_removeMember_ne _ _ _ hxo]
    by_cases hpm : p ∈ memberNames s.members
    · simp only [if_pos hpm]
      exact step2 _ step1
    · simp only [if_neg hpm]
      refine step2 _ ?_
      rw [findName_append_single_ne _ _ _ hnew]
      exact step1
  · simp only [if_neg hrem]
    by_cases hpm : p ∈ memberNames s.members
    · simp only [if_pos hpm]
      exact step2 _ step1
    · simp only [if_neg hpm]
      refine step2 _ ?_
      rw [findName_append_single_ne _ _ _ hnew]
      exact step1

theorem swap_dest_after (roster : Roster) (s : TeamState) (p tag : String)
    (om : Member) (hWF : WF s) (hold : firstHolder s.members tag = some om)
    (hp : p ≠ om.name) :
    findName (swapMove roster s p tag).members p =
      some (match findName s.members p with
        | some d => { d with tags := d.tags ++ [tag] }
        | none => { swapNewMember roster tag p with tags := [tag] }) := by
  rw [swap_eq_explicit roster s p tag om hWF hold hp]
  have step1 : findName
      (updateTags s.members om.name (fun tgs => tgs.filter (fun tg => tg != tag))) p =
      findName s.members p := findName_updateTags_ne _ _ _ _ hp
  have core : findName
      (updateTags
        (if p ∈ memberNames s.members then
          updateTags s.members om.name (fun tgs => tgs.filter (fun tg => tg != tag))
        else
          updateTags s.members om.name (fun tgs => tgs.filter (fun tg => tg != tag))
          ++ [swapNewMember roster tag p])
        p (fun tgs => tgs ++ [tag])) p =
      some (match findName s.members p with
        | some d => { d with tags := d.tags ++ [tag] }
        | none => { swapNewMember roster tag p with tags := [tag] }) := by
    rw [findName_updateTags_self]
    by_cases hpm : p ∈ memberNames s.members
    · simp only [if_pos hpm]
      rw [step1]
      cases hfd : findName s.members p with
      | none =>
        exfalso
        exact ((findName_eq_none _ _).1 hfd) hpm
      | some d => rfl
    · simp only [if_neg hpm]
      have h1 : findName
          (updateTags s.members om.name (fun tgs => tgs.filter (fun tg => tg != tag))) p
          = none := by
        rw [step1]
        exact (findName_eq_none _ _).2 hpm
      rw [findName_append_none _ _ _ h1]
      have hfd : findName s.members p = none := (findName_eq_none _ _).2 hpm
      rw [hfd]
      have hone : findName [swapNewMember roster tag p] p =
          some (swapNewMember roster tag p) := by
        simp [findName, List.find?, beq_iff_eq, swapNewMember_name]
      rw [hone]
      have htg : (swapNewMember roster tag p).tags = [] := swapNewMember_tags _ _ _
      simp [Option.map_some', htg]
  by_cases hrem : om.tags.filter (fun tg => tg != tag) = []
  · simp only [hrem, if_pos rfl, if_true]
    rw [findName_removeMember_ne _ _ _ hp]
    exact core
  · simp only [if_neg hrem]
    exact core

theorem swap_order_after (roster : Roster) (s : TeamState) (p tag : String)
    (om : Member) (hWF : WF s) (hold : firstHolder s.members tag = some om)
    (hp : p ≠ om.name) :
    (swapMove roster s p tag).order =
      if om.tags.filter (fun tg => tg != tag) = []
      then (if p ∈ memberNames s.members then s.order
            else jsInsertAfter s.order om.name p).filter (fun x => x != om.name)
      else (if p ∈ memberNames s.members then s.order
            else jsInsertAfter s.order om.name p) := by
  rw [swap_eq_explicit roster s p tag om hWF hold hp]

theorem swap_names_after (roster : Roster) (s : TeamState) (p tag : String)
    (om : Member) (hWF : WF s) (hold : firstHolder s.members tag = some om)
    (hp : p ≠ om.name) :
    memberNames (swapMove roster s p tag).members =
      if om.tags.filter (fun tg => tg != tag) = []
      then (if p ∈ memberNames s.members then memberNames s.members
            else memberNames s.members ++ [p]).filter (fun x => x != om.name)
      else (if p ∈ memberNames s.members then memberNames s.members
            else memberNames s.members ++ [p]) := by
  rw [swap_eq_explicit roster s p tag om hWF hold hp]
  have hbase : ∀ ms2 : List Member,
      memberNames (updateTags ms2 p (fun tgs => tgs ++ [tag])) = memberNames ms2 :=
    fun ms2 => memberNames_updateTags _ _ _
  have hn1 : memberNames
      (updateTags s.members om.name (fun tgs => tgs.filter (fun tg => tg != tag))) =
      memberNames s.members := memberNames_updateTags _ _ _
  have hn2 : memberNames
      ((updateTags s.members om.name (fun tgs => tgs.filter (fun tg => tg != tag)))
        ++ [swapNewMember roster tag p]) =
      memberNames s.members ++ [p] := by
    rw [memberNames_append, hn1]
    simp [memberNames, swapNewMember_name]
  by_cases hrem : om.tags.filter (fun tg => tg != tag) = []
  · simp only [hrem, if_pos rfl, if_true]
    rw [memberNames_removeMember]
    by_cases hpm : p ∈ memberNames s.members
    · simp only [if_pos hpm, hbase, hn1]
    · simp only [if_neg hpm, hbase, hn2]
  · simp only [if_neg hrem]
    by_cases hpm : p ∈ memberNames s.members
    · simp only [if_pos hpm, hbase, hn1]
    · simp only [if_neg hpm, hbase, hn2]

theorem swap_WF_after (roster : Roster) (s : TeamState) (p tag : String)
    (om : Member) (hWF : WF s) (hold : firstHolder s.members tag = some om)
    (hp : p ≠ om.name) : WF (swapMove roster s p tag) := by
  have hordf := swap_order_after roster s p tag om hWF hold hp
  have hnamesf := swap_names_after roster s p tag om hWF hold hp
  obtain ⟨hOrd, hNm, hON, hNO⟩ := hWF
  have hpnO : p ∉ memberNames s.members → p ∉ s.order := fun hpm hc => hpm (hON p hc)
  have hOrd2 : ∀ _ : p ∉ memberNames s.members, (jsInsertAfter s.order om.name p).Nodup :=
    fun hpm => jsInsertAfter_nodup _ _ _ hOrd (hpnO hpm) hp
  have hNm2 : p ∉ memberNames s.members → (memberNames s.members ++ [p]).Nodup := by
    intro hpm
    simp [List.nodup_append, hNm, hpm]
  refine ⟨?_, ?_, ?_, ?_⟩
  · rw [hordf]
    by_cases hrem : om.tags.filter (fun tg => tg != tag) = [] <;>
      by_cases hpm : p ∈ memberNames s.members <;>
      simp only [hrem, hpm, if_pos, if_neg, if_true, if_false] <;>
      first
        | exact hOrd
        | exact hOrd.filter _
        | exact hOrd2 (by assumption)
        | exact (hOrd2 (by assumption)).filter _
  · rw [hnamesf]
    by_cases hrem : om.tags.filter (fun tg => tg != tag) = [] <;>
      by_cases hpm : p ∈ memberNames s.members <;>
      simp only [hrem, hpm, if_pos, if_neg, if_true, if_false] <;>
      first
        | exact hNm
        | exact hNm.filter _
        | exact hNm2 (by assumption)
        | exact (hNm2 (by assumption)).filter _
  · intro n hn
    rw [hordf] at hn
    rw [hnamesf]
    by_cases hrem : om.tags.filter (fun tg => tg != tag) = []
    · rw [if_pos hrem] at hn ⊢
      rw [List.mem_filter] at hn ⊢
      refine ⟨?_, hn.2⟩
      by_cases hpm : p ∈ memberNames s.members
      · rw [if_pos hpm] at hn ⊢
        exact hON n hn.1
      · rw [if_neg hpm] at hn ⊢
        have := (mem_jsInsertAfter _ _ _ _).1 hn.1
        simp only [List.mem_append, List.mem_singleton]
        rcases this with h | h
        · exact Or.inl (hON n h)
        · exact Or.inr h
    · rw [if_neg hrem] at hn ⊢
      by_cases hpm : p ∈ memberNames s.members
      · rw [if_pos hpm] at hn ⊢
        exact hON n hn
      · rw [if_neg hpm] at hn ⊢
        have := (mem_jsInsertAfter _ _ _ _).1 hn
        simp only [List.mem_append, List.mem_singleton]
        rcases this with h | h
        · exact Or.inl (hON n h)
        · exact Or.inr h
  · intro n hn
    rw [hnamesf] at hn
    rw [hordf]
    by_cases hrem : om.tags.filter (fun tg => tg != tag) = []
    · rw [if_pos hrem] at hn ⊢
      rw [List.mem_filter] at hn ⊢
      refine ⟨?_, hn.2⟩
      by_cases hpm : p ∈ memberNames s.members
      · rw [if_pos hpm] at hn ⊢
        exact hNO n hn.1
      · rw [if_neg hpm] at hn ⊢
        rw [mem_jsInsertAfter]
        rcases List.mem_append.1 hn.1 with h | h
        · exact Or.inl (hNO n h)
        · exact Or.inr (List.mem_singleton.1 h)
    · rw [if_neg hrem] at hn ⊢
      by_cases hpm : p ∈ memberNames s.members
      · rw [if_pos hpm] at hn ⊢
        exact hNO n hn
      · rw [if_neg hpm] at hn ⊢
        rw [mem_jsInsertAfter]
        rcases List.mem_append.1 hn with h | h
        · exact Or.inl (hNO n h)
        · exact Or.inr (List.mem_singleton.1 h)

/-! ### The initial team construction -/

theorem initStep_order_eq_names (s : TeamState) (tp : Member)
    (hinv : s.order = memberNames s.members) :
    (initStep s tp).order = memberNames (initStep s tp).members := by
  unfold initStep
  by_cases hHM : hasMember s.members tp.name = true
  · simp only [hHM, if_pos rfl, if_true]
    rw [memberNames_updateTags]
    exact hinv
  · simp only [hHM, Bool.false_eq_true, if_false]
    rw [memberNames_append, hinv]
    rfl

theorem initFold_order_eq_names (team : List Member) (s : TeamState)
    (hinv : s.order = memberNames s.members) :
    (team.foldl initStep s).order = memberNames (team.foldl initStep s).members := by
  induction team generalizing s with
  | nil => simpa using hinv
  | cons tp team ih =>
    simp only [List.foldl_cons]
    exact ih _ (initStep_order_eq_names s tp hinv)

theorem initFold_order (team : List Member) (s : TeamState)
    (hinv : s.order = memberNames s.members) :
    (team.foldl initStep s).order =
      (team.map Member.name).foldl (fun acc t => if t ∈ acc then acc else acc ++ [t]) s.order := by
  induction team generalizing s with
  | nil => rfl
  | cons tp team ih =>
    simp only [List.foldl_cons, List.map_cons]
    by_cases htp : tp.name ∈ s.order
    · have hHM : hasMember s.members tp.name = true := by
        rw [hasMember_iff, ← hinv]
        exact htp
      have hstep : initStep s tp =
          { s with members := updateTags s.members tp.name (fun tgs => tgs ++ tp.tags) } := by
        unfold initStep
        simp only [hHM, if_pos rfl, if_true]
      rw [hstep, if_pos htp]
      refine ih _ ?_
      simp only
      rw [memberNames_updateTags]
      exact hinv
    · have hHM : hasMember s.members tp.name = false := by
        rw [← Bool.not_eq_true, hasMember_iff, ← hinv]
        exact htp
      have hstep : initStep s tp =
          { order := s.order ++ [tp.name], members := s.members ++ [tp] } := by
        unfold initStep
        simp only [hHM, Bool.false_eq_true, if_false]
      rw [hstep, if_neg htp]
      refine ih _ ?_
      simp only
      rw [memberNames_append, hinv]
      rfl

theorem initTeam_order (team : List Member) :
    (initTeam team).order = jsSetDedup (team.map Member.name) :=
  initFold_order team ⟨[], []⟩ rfl

theorem initTeam_WF (team : List Member) : WF (initTeam team) := by
  have heq : (initTeam team).order = memberNames (initTeam team).members :=
    initFold_order_eq_names team ⟨[], []⟩ rfl
  have hnd : (initTeam team).order.Nodup := by
    rw [initTeam_order]
    exact jsSetDedup_nodup _
  refine ⟨hnd, ?_, ?_, ?_⟩
  · rw [← heq]
    exact hnd
  · intro n hn
    rw [← heq]
    exact hn
  · intro n hn
    rw [heq]
    exact hn

/-! ### Member-level characterizations of the transitions -/

theorem tagsToMove_subset (roster : Roster) (T : List String) (dest : String) :
    ∀ tg ∈ tagsToMove roster T dest, tg ∈ T := by
  intro tg htg
  unfold tagsToMove at htg
  split at htg
  · exact List.mem_of_mem_filter htg
  · exact htg

theorem dropdown_member_cases (roster : Roster) (s : TeamState) (src dest : String)
    (m : Member) (s' : TeamState) (hWF : WF s) (hm : findName s.members src = some m)
    (hne : dest ≠ "") (hds : dest ≠ src)
    (hs' : dropdownMove roster s src dest = some s') :
    ∀ m' ∈ s'.members,
      (m'.name ≠ src ∧ m'.name ≠ dest ∧ m' ∈ s.members) ∨
      (m'.name = src ∧
        m.tags.filter (fun tg => !((tagsToMove roster m.tags dest).contains tg)) ≠ [] ∧
        m' = { m with
          tags := m.tags.filter (fun tg => !((tagsToMove roster m.tags dest).contains tg)) }) ∨
      (m'.name = dest ∧
        m' = (match findName s.members dest with
          | some d => { d with
              tags := jsSetDedup (d.tags ++ (tagsToMove roster m.tags dest).filter
                (fun tg => !(isBlankTag tg))) }
          | none => { newMemberInfo roster (tagsToMove roster m.tags dest) dest with
              tags := jsSetDedup ((tagsToMove roster m.tags dest).filter
                (fun tg => !(isBlankTag tg))) })) := by
  intro m' hm'
  have hWF' : WF s' := dropdown_WF_after roster s src dest m s' hWF hm hne hds hs'
  have hfind' : findName s'.members m'.name = some m' :=
    findName_of_nodup_mem _ _ hWF'.2.1 hm'
  by_cases hsrc : m'.name = src
  · right; left
    rw [hsrc] at hfind'
    rw [dropdown_src_after roster s src dest m s' hWF hm hne hds hs'] at hfind'
    by_cases hrem : m.tags.filter
        (fun tg => !((tagsToMove roster m.tags dest).contains tg)) = []
    · rw [if_pos hrem] at hfind'
      cases hfind'
    · rw [if_neg hrem] at hfind'
      exact ⟨hsrc, hrem, (Option.some.injEq _ _ ▸ hfind').symm⟩
  · by_cases hdest : m'.name = dest
    · right; right
      rw [hdest] at hfind'
      rw [dropdown_dest_after roster s src dest m s' hWF hm hne hds hs'] at hfind'
      exact ⟨hdest, (Option.some.injEq _ _ ▸ hfind').symm⟩
    · left
      rw [dropdown_other_after roster s src dest m s' m'.name hWF hm hne hds hsrc hdest hs']
        at hfind'
      exact ⟨hsrc, hdest, (mem_of_findName _ _ _ hfind').1⟩

theorem swap_member_cases (roster : Roster) (s : TeamState) (p tag : String)
    (om : Member) (hWF : WF s) (hold : firstHolder s.members tag = some om)
    (hp : p ≠ om.name) :
    ∀ m' ∈ (swapMove roster s p tag).members,
      (m'.name ≠ om.name ∧ m'.name ≠ p ∧ m' ∈ s.members) ∨
      (m'.name = om.name ∧ om.tags.filter (fun tg => tg != tag) ≠ [] ∧
        m' = { om with tags := om.tags.filter (fun tg => tg != tag) }) ∨
      (m'.name = p ∧
        m' = (match findName s.members p with
          | some d => { d with tags := d.tags ++ [tag] }
          | none => { swapNewMember roster tag p with tags := [tag] })) := by
  intro m' hm'
  have hWF' : WF (swapMove roster s p tag) := swap_WF_after roster s p tag om hWF hold hp
  have hfind' : findName (swapMove roster s p tag).members m'.name = some m' :=
    findName_of_nodup_mem _ _ hWF'.2.1 hm'
  by_cases hsrc : m'.name = om.name
  · right; left
    rw [hsrc] at hfind'
    rw [swap_src_after roster s p tag om hWF hold hp] at hfind'
    by_cases hrem : om.tags.filter (fun tg => tg != tag) = []
    · rw [if_pos hrem] at hfind'
      cases hfind'
    · rw [if_neg hrem] at hfind'
      exact ⟨hsrc, hrem, (Option.some.injEq _ _ ▸ hfind').symm⟩
  · by_cases hdest : m'.name = p
    · right; right
      rw [hdest] at hfind'
      rw [swap_dest_after roster s p tag om hWF hold hp] at hfind'
      exact ⟨hdest, (Option.some.injEq _ _ ▸ hfind').symm⟩
    · left
      rw [swap_other_after roster s p tag om m'.name hWF hold hp hsrc hdest] at hfind'
      exact ⟨hsrc, hdest, (mem_of_findName _ _ _ hfind').1⟩

theorem mem_filter_not_contains (l mv : List String) (tg : String)
    (h : tg ∈ l.filter (fun x => !(mv.contains x))) : tg ∈ l ∧ tg ∉ mv := by
  rw [List.mem_filter] at h
  refine ⟨h.1, ?_⟩
  simpa using h.2

theorem mem_filter_bne (l : List String) (tag tg : String)
    (h : tg ∈ l.filter (fun x => x != tag)) : tg ∈ l ∧ tg ≠ tag := by
  rw [List.mem_filter] at h
  refine ⟨h.1, ?_⟩
  simpa [bne_iff_ne] using h.2

theorem dropdown_nonempty_after (roster : Roster) (s : TeamState) (src dest : String)
    (m : Member) (s' : TeamState) (hWF : WF s) (hm : findName s.members src = some m)
    (hne : dest ≠ "") (hds : dest ≠ src) (hNE : NonemptyTags s)
    (hcond : dest ∈ memberNames s.members ∨
      (tagsToMove roster m.tags dest).filter (fun tg => !(isBlankTag tg)) ≠ [])
    (hs' : dropdownMove roster s src dest = some s') : NonemptyTags s' := by
  intro m' hm'
  rcases dropdown_member_cases roster s src dest m s' hWF hm hne hds hs' m' hm' with
    ⟨_, _, hmem⟩ | ⟨_, hrem, hemq⟩ | ⟨hdn, hemq⟩
  · exact hNE _ hmem
  · rw [hemq]
    simpa using hrem
  · rw [hemq]
    cases hfd : findName s.members dest with
    | some d =>
      simp only [hfd]
      have hd : d.tags ≠ [] := hNE d (mem_of_findName _ _ _ hfd).1
      apply jsSetDedup_ne_nil
      intro hc
      rcases List.append_eq_nil.1 hc with ⟨h1, _⟩
      exact hd h1
    | none =>
      simp only [hfd]
      have hnd : dest ∉ memberNames s.members := (findName_eq_none _ _).1 hfd
      rcases hcond with h | h
      · exact absurd h hnd
      · exact jsSetDedup_ne_nil _ h

theorem swap_nonempty_after (roster : Roster) (s : TeamState) (p tag : String)
    (hWF : WF s) (hNE : NonemptyTags s) : NonemptyTags (swapMove roster s p tag) := by
  cases hold : firstHolder s.members tag with
  | none =>
    rw [swap_noop_none roster s p tag hold]
    exact hNE
  | some om =>
    by_cases hp : p = om.name
    · rw [swap_noop_self roster s p tag om hold hp]
      exact hNE
    · intro m' hm'
      rcases swap_member_cases roster s p tag om hWF hold hp m' hm' with
        ⟨_, _, hmem⟩ | ⟨_, hrem, hemq⟩ | ⟨hdn, hemq⟩
      · exact hNE _ hmem
      · rw [hemq]
        simpa using hrem
      · rw [hemq]
        cases hfd : findName s.members p with
        | some d =>
          simp only [hfd]
          simp
        | none =>
          simp only [hfd]
          simp

theorem dropdown_disjoint_after (roster : Roster) (s : TeamState) (src dest : String)
    (m : Member) (s' : TeamState) (hWF : WF s) (hm : findName s.members src = some m)
    (hne : dest ≠ "") (hds : dest ≠ src) (hD : disjointTags s)
    (hs' : dropdownMove roster s src dest = some s') : disjointTags s' := by
  obtain ⟨hmMem, hmName⟩ := mem_of_findName _ _ _ hm
  have hmv : ∀ tg ∈ tagsToMove roster m.tags dest, tg ∈ m.tags :=
    tagsToMove_subset roster m.tags dest
  have hdestTags : ∀ m' : Member,
      m' = (match findName s.members dest with
        | some d => { d with
            tags := jsSetDedup (d.tags ++ (tagsToMove roster m.tags dest).filter
              (fun tg => !(isBlankTag tg))) }
        | none => { newMemberInfo roster (tagsToMove roster m.tags dest) dest with
            tags := jsSetDedup ((tagsToMove roster m.tags dest).filter
              (fun tg => !(isBlankTag tg))) }) →
      ∀ tg ∈ m'.tags,
        (∃ d, findName s.members dest = some d ∧ tg ∈ d.tags) ∨
          tg ∈ tagsToMove roster m.tags dest := by
    intro m' hEq tg htg
    cases hfd : findName s.members dest with
    | some d =>
      rw [hfd] at hEq
      rw [hEq] at htg
      simp only [mem_jsSetDedup, List.mem_append] at htg
      rcases htg with h | h
      · exact Or.inl ⟨d, rfl, h⟩
      · exact Or.inr (List.mem_of_mem_filter h)
    | none =>
      rw [hfd] at hEq
      rw [hEq] at htg
      simp only [mem_jsSetDedup] at htg
      exact Or.inr (List.mem_of_mem_filter htg)
  have hremFacts : ∀ tg ∈ m.tags.filter
      (fun x => !((tagsToMove roster m.tags dest).contains x)),
      tg ∈ m.tags ∧ tg ∉ tagsToMove roster m.tags dest :=
    fun tg h => mem_filter_not_contains _ _ _ h
  intro m1 hm1 m2 hm2 hnn tg htg
  rcases dropdown_member_cases roster s src dest m s' hWF hm hne hds hs' m1 hm1 with
    ⟨h1s, h1d, h1mem⟩ | ⟨h1s, h1rem, h1eq⟩ | ⟨h1d, h1eq⟩
  · -- m1 is an untouched member of s
    rcases dropdown_member_cases roster s src dest m s' hWF hm hne hds hs' m2 hm2 with
      ⟨h2s, h2d, h2mem⟩ | ⟨h2s, h2rem, h2eq⟩ | ⟨h2d, h2eq⟩
    · exact hD m1 h1mem m2 h2mem hnn tg htg
    · rw [h2eq]
      intro hc
      have := (hremFacts tg (by simpa using hc)).1
      exact hD m1 h1mem m hmMem (by rw [hmName]; exact h1s) tg htg this
    · intro hc
      rcases hdestTags m2 h2eq tg (by exact hc) with ⟨d, hfd, hdtg⟩ | hmv'
      · have hdmem := (mem_of_findName _ _ _ hfd).1
        have hdname := (mem_of_findName _ _ _ hfd).2
        exact hD m1 h1mem d hdmem (by rw [hdname]; exact h1d) tg htg hdtg
      · exact hD m1 h1mem m hmMem (by rw [hmName]; exact h1s) tg htg (hmv tg hmv')
  · -- m1 is the reduced source entry
    have h1tags : tg ∈ m.tags ∧ tg ∉ tagsToMove roster m.tags dest := by
      rw [h1eq] at htg
      exact hremFacts tg (by simpa using htg)
    rcases dropdown_member_cases roster s src dest m s' hWF hm hne hds hs' m2 hm2 with
      ⟨h2s, h2d, h2mem⟩ | ⟨h2s, h2rem, h2eq⟩ | ⟨h2d, h2eq⟩
    · exact hD m hmMem m2 h2mem (by rw [hmName]; rw [h1s] at hnn; exact hnn) tg h1tags.1
    · exact absurd (h1s.trans h2s.symm) hnn
    · intro hc
      rcases hdestTags m2 h2eq tg hc with ⟨d, hfd, hdtg⟩ | hmv'
      · have hdmem := (mem_of_findName _ _ _ hfd).1
        have hdname := (mem_of_findName _ _ _ hfd).2
        refine hD m hmMem d hdmem ?_ tg h1tags.1 hdtg
        rw [hmName, hdname]
        exact Ne.symm hds
      · exact h1tags.2 hmv'
  · -- m1 is the destination entry
    have h1tags : (∃ d, findName s.members dest = some d ∧ tg ∈ d.tags) ∨
        tg ∈ tagsToMove roster m.tags dest := hdestTags m1 h1eq tg htg
    rcases dropdown_member_cases roster s src dest m s' hWF hm hne hds hs' m2 hm2 with
      ⟨h2s, h2d, h2mem⟩ | ⟨h2s, h2rem, h2eq⟩ | ⟨h2d, h2eq⟩
    · rcases h1tags with ⟨d, hfd, hdtg⟩ | hmv'
      · have hdmem := (mem_of_findName _ _ _ hfd).1
        have hdname := (mem_of_findName _ _ _ hfd).2
        exact hD d hdmem m2 h2mem (by rw [hdname]; exact fun hc => h2d hc.symm) tg hdtg
      · exact hD m hmMem m2 h2mem
          (by rw [hmName]; exact fun hc => h2s hc.symm) tg (hmv tg hmv')
    · rw [h2eq]
      intro hc
      have h2facts := hremFacts tg (by simpa using hc)
      rcases h1tags with ⟨d, hfd, hdtg⟩ | hmv'
      · have hdmem := (mem_of_findName _ _ _ hfd).1
        have hdname := (mem_of_findName _ _ _ hfd).2
        exact hD d hdmem m hmMem (by rw [hdname, hmName]; exact hds) tg hdtg h2facts.1
      · exact h2facts.2 hmv'
    · exact absurd (h1d.trans h2d.symm) hnn

theorem swap_disjoint_after (roster : Roster) (s : TeamState) (p tag : String)
    (hWF : WF s) (hD : disjointTags s) : disjointTags (swapMove roster s p tag) := by
  cases hold : firstHolder s.members tag with
  | none =>
    rw [swap_noop_none roster s p tag hold]
    exact hD
  | some om =>
    by_cases hp : p = om.name
    · rw [swap_noop_self roster s p tag om hold hp]
      exact hD
    · have homMem : om ∈ s.members := List.mem_of_find?_eq_some hold
      have homTag : tag ∈ om.tags := by
        have := List.find?_some hold
        simpa using this
      have hdestTags : ∀ m' : Member,
          m' = (match findName s.members p with
            | some d => { d with tags := d.tags ++ [tag] }
            | none => { swapNewMember roster tag p with tags := [tag] }) →
          ∀ tg ∈ m'.tags,
            (∃ d, findName s.members p = some d ∧ tg ∈ d.tags) ∨ tg = tag := by
        intro m' hEq tg htg
        cases hfd : findName s.members p with
        | some d =>
          rw [hfd] at hEq
          rw [hEq] at htg
          simp only [List.mem_append, List.mem_singleton] at htg
          rcases htg with h | h
          · exact Or.inl ⟨d, rfl, h⟩
          · exact Or.inr h
        | none =>
          rw [hfd] at hEq
          rw [hEq] at htg
          simp only [List.mem_singleton] at htg
          exact Or.inr htg
      intro m1 hm1 m2 hm2 hnn tg htg
      rcases swap_member_cases roster s p tag om hWF hold hp m1 hm1 with
        ⟨h1s, h1d, h1mem⟩ | ⟨h1s, h1rem, h1eq⟩ | ⟨h1d, h1eq⟩
      · rcases swap_member_cases roster s p tag om hWF hold hp m2 hm2 with
          ⟨h2s, h2d, h2mem⟩ | ⟨h2s, h2rem, h2eq⟩ | ⟨h2d, h2eq⟩
        · exact hD m1 h1mem m2 h2mem hnn tg htg
        · rw [h2eq]
          intro hc
          have := (mem_filter_bne _ _ _ (by simpa using hc)).1
          exact hD m1 h1mem om homMem h1s tg htg this
        · intro hc
          rcases hdestTags m2 h2eq tg hc with ⟨d, hfd, hdtg⟩ | rfl
          · have hdmem := (mem_of_findName _ _ _ hfd).1
            have hdname := (mem_of_findName _ _ _ hfd).2
            exact hD m1 h1mem d hdmem (by rw [hdname]; exact h1d) tg htg hdtg
          · exact hD m1 h1mem om homMem h1s tg htg homTag
      · have h1tags : tg ∈ om.tags ∧ tg ≠ tag := by
          rw [h1eq] at htg
          exact mem_filter_bne _ _ _ (by simpa using htg)
        rcases swap_member_cases roster s p tag om hWF hold hp m2 hm2 with
          ⟨h2s, h2d, h2mem⟩ | ⟨h2s, h2rem, h2eq⟩ | ⟨h2d, h2eq⟩
        · exact hD om homMem m2 h2mem (by rw [h1s] at hnn; exact hnn) tg h1tags.1
        · exact absurd (h1s.trans h2s.symm) hnn
        · intro hc
          rcases hdestTags m2 h2eq tg hc with ⟨d, hfd, hdtg⟩ | heq
          · have hdmem := (mem_of_findName _ _ _ hfd).1
            have hdname := (mem_of_findName _ _ _ hfd).2
            refine hD om homMem d hdmem ?_ tg h1tags.1 hdtg
            rw [hdname]
            exact Ne.symm hp
          · exact h1tags.2 heq
      · have h1tags : (∃ d, findName s.members p = some d ∧ tg ∈ d.tags) ∨ tg = tag :=
          hdestTags m1 h1eq tg htg
        rcases swap_member_cases roster s p tag om hWF hold hp m2 hm2 with
          ⟨h2s, h2d, h2mem⟩ | ⟨h2s, h2rem, h2eq⟩ | ⟨h2d, h2eq⟩
        · rcases h1tags with ⟨d, hfd, hdtg⟩ | rfl
          · have hdmem := (mem_of_findName _ _ _ hfd).1
            have hdname := (mem_of_findName _ _ _ hfd).2
            exact hD d hdmem m2 h2mem (by rw [hdname]; exact fun hc => h2d hc.symm) tg hdtg
          · exact hD om homMem m2 h2mem (fun hc => h2s hc.symm) tg homTag
        · rw [h2eq]
          intro hc
          have h2facts := mem_filter_bne _ _ _ (by simpa using hc)
          rcases h1tags with ⟨d, hfd, hdtg⟩ | rfl
          · have hdmem := (mem_of_findName _ _ _ hfd).1
            have hdname := (mem_of_findName _ _ _ hfd).2
            exact hD d hdmem om homMem (by rw [hdname]; exact hp) tg hdtg h2facts.1
          · exact h2facts.2 rfl
        · exact absurd (h1d.trans h2d.symm) hnn

theorem initStep_disjoint (s : TeamState) (tp : Member) (team : List Member)
    (hS : disjointMemberTags s.members)
    (hT : disjointMemberTags (tp :: team))
    (hCross : ∀ m ∈ s.members, ∀ e ∈ tp :: team, m.name ≠ e.name → ∀ tg ∈ m.tags, tg ∉ e.tags) :
    disjointMemberTags (initStep s tp).members := by
  unfold initStep
  by_cases hHM : hasMember s.members tp.name = true
  · simp only [hHM, if_pos rfl, if_true]
    intro m1 hm1 m2 hm2 hnn tg htg
    rcases (mem_updateTags _ _ _ _).1 hm1 with ⟨z1, hz1, hz1e⟩
    rcases (mem_updateTags _ _ _ _).1 hm2 with ⟨z2, hz2, hz2e⟩
    subst hz1e
    subst hz2e
    by_cases h1n : z1.name = tp.name
    · by_cases h2n : z2.name = tp.name
      · rw [if_pos h1n, if_pos h2n] at hnn
        simp only at hnn
        exact absurd (h1n.trans h2n.symm) hnn
      · rw [if_pos h1n] at hnn htg
        rw [if_neg h2n] at hnn ⊢
        simp only [List.mem_append] at htg
        simp only at hnn
        rcases htg with h | h
        · exact hS z1 hz1 z2 hz2 hnn tg h
        · intro hc
          exact hCross z2 hz2 tp (List.mem_cons_self _ _) h2n tg hc h
    · by_cases h2n : z2.name = tp.name
      · rw [if_neg h1n] at hnn htg
        rw [if_pos h2n] at hnn ⊢
        simp only at hnn
        simp only [List.mem_append, not_or]
        refine ⟨hS z1 hz1 z2 hz2 hnn tg htg, ?_⟩
        exact hCross z1 hz1 tp (List.mem_cons_self _ _) h1n tg htg
      · rw [if_neg h1n] at hnn htg
        rw [if_neg h2n] at hnn ⊢
        exact hS z1 hz1 z2 hz2 hnn tg htg
  · simp only [hHM, Bool.false_eq_true, if_false]
    intro m1 hm1 m2 hm2 hnn tg htg
    rcases List.mem_append.1 hm1 with h1 | h1 <;> rcases List.mem_append.1 hm2 with h2 | h2
    · exact hS m1 h1 m2 h2 hnn tg htg
    · rcases List.mem_singleton.1 h2 with rfl
      exact hCross m1 h1 m2 (List.mem_cons_self _ _) hnn tg htg
    · rcases List.mem_singleton.1 h1 with rfl
      intro hc
      exact hCross m2 h2 m1 (List.mem_cons_self _ _) (Ne.symm hnn) tg hc htg
    · rcases List.mem_singleton.1 h1 with rfl
      rcases List.mem_singleton.1 h2 with rfl
      exact absurd rfl hnn

theorem initStep_cross (s : TeamState) (tp : Member) (team : List Member)
    (hT : disjointMemberTags (tp :: team))
    (hCross : ∀ m ∈ s.members, ∀ e ∈ tp :: team, m.name ≠ e.name → ∀ tg ∈ m.tags, tg ∉ e.tags) :
    ∀ m ∈ (initStep s tp).members, ∀ e ∈ team, m.name ≠ e.name →
      ∀ tg ∈ m.tags, tg ∉ e.tags := by
  unfold initStep
  by_cases hHM : hasMember s.members tp.name = true
  · simp only [hHM, if_pos rfl, if_true]
    intro m' hm' e he hnn tg htg
    rcases (mem_updateTags _ _ _ _).1 hm' with ⟨z, hz, hze⟩
    by_cases hzn : z.name = tp.name
    · rw [hze, if_pos hzn] at htg hnn
      simp only [List.mem_append] at htg
      rcases htg with h | h
      · exact hCross z hz e (List.mem_cons_of_mem _ he) hnn tg h
      · refine hT tp (List.mem_cons_self _ _) e (List.mem_cons_of_mem _ he) ?_ tg h
        rw [← hzn]
        exact hnn
    · rw [hze, if_neg hzn] at htg hnn
      exact hCross z hz e (List.mem_cons_of_mem _ he) hnn tg htg
  · simp only [hHM, Bool.false_eq_true, if_false]
    intro m' hm' e he hnn tg htg
    rcases List.mem_append.1 hm' with h1 | h1
    · exact hCross m' h1 e (List.mem_cons_of_mem _ he) hnn tg htg
    · rcases List.mem_singleton.1 h1 with rfl
      exact hT m' (List.mem_cons_self _ _) e (List.mem_cons_of_mem _ he) hnn tg htg

theorem initFold_disjoint (team : List Member) (s : TeamState)
    (hS : disjointMemberTags s.members)
    (hT : disjointMemberTags team)
    (hCross : ∀ m ∈ s.members, ∀ e ∈ team, m.name ≠ e.name → ∀ tg ∈ m.tags, tg ∉ e.tags) :
    disjointMemberTags (team.foldl initStep s).members := by
  induction team generalizing s with
  | nil => exact hS
  | cons tp team ih =>
    simp only [List.foldl_cons]
    refine ih (initStep s tp) (initStep_disjoint s tp team hS hT hCross) ?_
      (initStep_cross s tp team hT hCross)
    intro e1 h1 e2 h2
    exact hT e1 (List.mem_cons_of_mem _ h1) e2 (List.mem_cons_of_mem _ h2)

theorem initTeam_disjoint (team : List Member) (hT : disjointMemberTags team) :
    disjointTags (initTeam team) := by
  refine initFold_disjoint team ⟨[], []⟩ ?_ hT ?_
  · intro m1 hm1
    simp at hm1
  · intro m hm
    simp at hm

/-! ### Stability of the retained ordering -/

theorem filter_insertAfterFirst (l : List String) (o n : String) (p : String → Bool)
    (hn : p n = false) : (insertAfterFirst l o n).filter p = l.filter p := by
  induction l with
  | nil => simp [insertAfterFirst, List.filter_cons, hn]
  | cons x xs ih =>
    simp only [insertAfterFirst]
    by_cases hx : x = o
    · rw [if_pos hx]
      simp only [List.filter_cons, hn]
      cases hpx : p x <;> simp [hpx, hn]
    · rw [if_neg hx]
      simp only [List.filter_cons]
      cases hpx : p x <;> simp [hpx, ih]

theorem filter_jsInsertAfter (l : List String) (o n : String) (p : String → Bool)
    (hn : p n = false) : (jsInsertAfter l o n).filter p = l.filter p := by
  unfold jsInsertAfter
  by_cases ho : o ∈ l
  · rw [if_pos ho]
    exact filter_insertAfterFirst l o n p hn
  · rw [if_neg ho]
    simp [List.filter_cons, hn]

theorem commonSeq_self (l : List String) : commonSeq l l = l := by
  unfold commonSeq
  rw [List.filter_eq_self]
  intro x hx
  simpa using hx

theorem commonSeq_insert (l : List String) (src q : String) (hq : q ∉ l) :
    commonSeq l (jsInsertAfter l src q) = commonSeq (jsInsertAfter l src q) l := by
  unfold commonSeq
  have h1 : l.filter (fun x => decide (x ∈ jsInsertAfter l src q)) = l := by
    rw [List.filter_eq_self]
    intro x hx
    simp only [decide_eq_true_eq]
    exact (mem_jsInsertAfter _ _ _ _).2 (Or.inl hx)
  have h2 : (jsInsertAfter l src q).filter (fun x => decide (x ∈ l)) = l := by
    rw [filter_jsInsertAfter _ _ _ _ (by simp [hq])]
    rw [List.filter_eq_self]
    intro x hx
    simpa using hx
  rw [h1, h2]

theorem commonSeq_filter (l : List String) (src : String) :
    commonSeq l (l.filter (fun x => x != src)) =
      commonSeq (l.filter (fun x => x != src)) l := by
  unfold commonSeq
  have h1 : l.filter (fun x => decide (x ∈ l.filter (fun x => x != src))) =
      l.filter (fun x => x != src) := by
    apply List.filter_congr
    intro x hx
    by_cases hxs : (x != src) = true
    · simp only [hxs, decide_eq_true_eq]
      rw [List.mem_filter]
      simp [hx, hxs]
    · simp only [Bool.not_eq_true] at hxs
      simp only [hxs, decide_eq_false_iff_not]
      rw [List.mem_filter]
      simp [hxs]
  have h2 : (l.filter (fun x => x != src)).filter (fun x => decide (x ∈ l)) =
      l.filter (fun x => x != src) := by
    rw [List.filter_eq_self]
    intro x hx
    simp only [decide_eq_true_eq]
    exact List.mem_of_mem_filter hx
  rw [h1, h2]

theorem commonSeq_insert_filter (l : List String) (src q : String) (hq : q ∉ l) :
    commonSeq l ((jsInsertAfter l src q).filter (fun x => x != src)) =
      commonSeq ((jsInsertAfter l src q).filter (fun x => x != src)) l := by
  unfold commonSeq
  have h1 : l.filter
      (fun x => decide (x ∈ (jsInsertAfter l src q).filter (fun x => x != src))) =
      l.filter (fun x => x != src) := by
    apply List.filter_congr
    intro x hx
    by_cases hxs : (x != src) = true
    · simp only [hxs, decide_eq_true_eq]
      rw [List.mem_filter]
      exact ⟨(mem_jsInsertAfter _ _ _ _).2 (Or.inl hx), hxs⟩
    · simp only [Bool.not_eq_true] at hxs
      simp only [hxs, decide_eq_false_iff_not]
      rw [List.mem_filter]
      simp [hxs]
  have h2 : ((jsInsertAfter l src q).filter (fun x => x != src)).filter
      (fun x => decide (x ∈ l)) = l.filter (fun x => x != src) := by
    rw [List.filter_filter]
    have h3 : (jsInsertAfter l src q).filter
        (fun x => decide (x ∈ l) && (x != src)) =
        l.filter (fun x => decide (x ∈ l) && (x != src)) := by
      apply filter_jsInsertAfter
      simp [hq]
    rw [h3]
    apply List.filter_congr
    intro x hx
    simp [hx]
  rw [h1, h2]

theorem dropdown_self_shape (roster : Roster) (s : TeamState) (src : String)
    (m : Member) (s' : TeamState) (hWF : WF s) (hm : findName s.members src = some m)
    (hne : src ≠ "") (hs' : dropdownMove roster s src src = some s') :
    (s'.order = s.order ∧ memberNames s'.members = memberNames s.members) ∨
    (s'.order = s.order.filter (fun x => x != src) ∧
      memberNames s'.members = (memberNames s.members).filter (fun x => x != src)) := by
  obtain ⟨hOrd, hNm, hON, hNO⟩ := hWF
  have hsrcN : src ∈ memberNames s.members := by
    have := mem_of_findName _ _ _ hm
    exact this.2 ▸ List.mem_map_of_mem Member.name this.1
  unfold dropdownMove at hs'
  rw [if_neg hne, hm] at hs'
  have hHM : hasMember
      (updateTags s.members src
        (fun tgs => tgs.filter (fun tg => !((tagsToMove roster m.tags src).contains tg)))) src
      = true := by
    rw [hasMember_iff, memberNames_updateTags]
    exact hsrcN
  simp only [hHM, Bool.not_true, Bool.false_eq_true, if_false] at hs'
  have hfind3 : findName
      (updateTags
        (updateTags s.members src
          (fun tgs => tgs.filter (fun tg => !((tagsToMove roster m.tags src).contains tg))))
        src
        (fun tgs => jsSetDedup (tgs ++ (tagsToMove roster m.tags src).filter
          (fun tg => !(isBlankTag tg))))) src =
      some { m with
        tags := jsSetDedup ((m.tags.filter
          (fun tg => !((tagsToMove roster m.tags src).contains tg))) ++
          (tagsToMove roster m.tags src).filter (fun tg => !(isBlankTag tg))) } := by
    rw [findName_updateTags_self, findName_updateTags_self, hm]
    rfl
  rw [hfind3] at hs'
  simp only at hs'
  cases hb : (jsSetDedup ((m.tags.filter
      (fun tg => !((tagsToMove roster m.tags src).contains tg))) ++
      (tagsToMove roster m.tags src).filter (fun tg => !(isBlankTag tg)))).isEmpty
  · simp only [hb, Bool.false_eq_true, if_false, Option.some.injEq] at hs'
    subst hs'
    left
    constructor
    · exact jsSetDedup_eq_self _ hOrd
    · rw [memberNames_updateTags, memberNames_updateTags]
  · simp only [hb, if_true, Option.some.injEq] at hs'
    subst hs'
    right
    constructor
    · exact jsSetDedup_eq_self _ (hOrd.filter _)
    · rw [memberNames_removeMember, memberNames_updateTags, memberNames_updateTags]

theorem applyMove_WF (roster : Roster) (s : TeamState) (mv : Move) (hWF : WF s) :
    WF (applyMove roster s mv) := by
  cases mv with
  | swap p t =>
    show WF (swapMove roster s p t)
    cases hold : firstHolder s.members t with
    | none =>
      rw [swap_noop_none roster s p t hold]
      exact hWF
    | some om =>
      by_cases hp : p = om.name
      · rw [swap_noop_self roster s p t om hold hp]
        exact hWF
      · exact swap_WF_after roster s p t om hWF hold hp
  | drop o n =>
    show WF ((dropdownMove roster s o n).getD s)
    by_cases hn : n = ""
    · subst hn
      rw [dropdown_noop_empty]
      exact hWF
    · cases hm : findName s.members o with
      | none =>
        rw [dropdown_none_of_missing roster s o n hn hm]
        exact hWF
      | some m =>
        by_cases hno : n = o
        · subst hno
          cases hs' : dropdownMove roster s n n with
          | none =>
            exact hWF
          | some s' =>
            show WF s'
            have hshape := dropdown_self_shape roster s n m s' hWF hm hn hs'
            obtain ⟨hOrd, hNm, hON, hNO⟩ := hWF
            rcases hshape with ⟨ho, hnm⟩ | ⟨ho, hnm⟩
            · exact ⟨ho ▸ hOrd, hnm ▸ hNm,
                fun x hx => hnm ▸ hON x (ho ▸ hx), fun x hx => ho ▸ hNO x (hnm ▸ hx)⟩
            · refine ⟨ho ▸ hOrd.filter _, hnm ▸ hNm.filter _, ?_, ?_⟩
              · intro x hx
                rw [ho] at hx
                rw [hnm]
                rw [List.mem_filter] at hx ⊢
                exact ⟨hON x hx.1, hx.2⟩
              · intro x hx
                rw [hnm] at hx
                rw [ho]
                rw [List.mem_filter] at hx ⊢
                exact ⟨hNO x hx.1, hx.2⟩
        · cases hs' : dropdownMove roster s o n with
          | none =>
            exact hWF
          | some s' =>
            exact dropdown_WF_after roster s o n m s' hWF hm hn hno hs'

theorem applyMove_stable (roster : Roster) (s : TeamState) (mv : Move) (hWF : WF s) :
    commonSeq s.order (applyMove roster s mv).order =
      commonSeq (applyMove roster s mv).order s.order := by
  cases mv with
  | swap p t =>
    show commonSeq s.order (swapMove roster s p t).order =
      commonSeq (swapMove roster s p t).order s.order
    cases hold : firstHolder s.members t with
    | none =>
      rw [swap_noop_none roster s p t hold]
    | some om =>
      by_cases hp : p = om.name
      · rw [swap_noop_self roster s p t om hold hp]
      · have hordf := swap_order_after roster s p t om hWF hold hp
        obtain ⟨hOrd, hNm, hON, hNO⟩ := hWF
        rw [hordf]
        by_cases hrem : om.tags.filter (fun tg => tg != t) = []
        · rw [if_pos hrem]
          by_cases hpm : p ∈ memberNames s.members
          · rw [if_pos hpm]
            exact commonSeq_filter _ _
          · rw [if_neg hpm]
            exact commonSeq_insert_filter _ _ _ (fun hc => hpm (hON p hc))
        · rw [if_neg hrem]
          by_cases hpm : p ∈ memberNames s.members
          · rw [if_pos hpm]
          · rw [if_neg hpm]
            exact commonSeq_insert _ _ _ (fun hc => hpm (hON p hc))
  | drop o n =>
    show commonSeq s.order ((dropdownMove roster s o n).getD s).order =
      commonSeq ((dropdownMove roster s o n).getD s).order s.order
    by_cases hn : n = ""
    · subst hn
      rw [dropdown_noop_empty]
      rfl
    · cases hm : findName s.members o with
      | none =>
        rw [dropdown_none_of_missing roster s o n hn hm]
        rfl
      | some m =>
        by_cases hno : n = o
        · subst hno
          cases hs' : dropdownMove roster s n n with
          | none => rfl
          | some s' =>
            rcases dropdown_self_shape roster s n m s' hWF hm hn hs' with ⟨ho, _⟩ | ⟨ho, _⟩
            · rw [show ((some s').getD s) = s' from rfl, ho]
            · rw [show ((some s').getD s) = s' from rfl, ho]
              exact commonSeq_filter _ _
        · cases hs' : dropdownMove roster s o n with
          | none => rfl
          | some s' =>
            have hordf := dropdown_order_after roster s o n m s' hWF hm hn hno hs'
            obtain ⟨hOrd, hNm, hON, hNO⟩ := hWF
            rw [show ((some s').getD s) = s' from rfl, hordf]
            by_cases hrem : m.tags.filter
                (fun tg => !((tagsToMove roster m.tags n).contains tg)) = []
            · rw [if_pos hrem]
              by_cases hdm : n ∈ memberNames s.members
              · rw [if_pos hdm]
                exact commonSeq_filter _ _
              · rw [if_neg hdm]
                exact commonSeq_insert_filter _ _ _ (fun hc => hdm (hON n hc))
            · rw [if_neg hrem]
              by_cases hdm : n ∈ memberNames s.members
              · rw [if_pos hdm]
              · rw [if_neg hdm]
                exact commonSeq_insert _ _ _ (fun hc => hdm (hON n hc))

theorem dropdown_self_members (roster : Roster) (s : TeamState) (src : String)
    (m : Member) (s' : TeamState) (hm : findName s.members src = some m)
    (hne : src ≠ "") (hs' : dropdownMove roster s src src = some s') :
    ∀ m' ∈ s'.members,
      (m'.name ≠ src ∧ m' ∈ s.members) ∨
      (m'.name = src ∧ ∀ tg ∈ m'.tags, ∃ z ∈ s.members, z.name = src ∧ tg ∈ z.tags) := by
  have hsrcN : src ∈ memberNames s.members := by
    have := mem_of_findName _ _ _ hm
    exact this.2 ▸ List.mem_map_of_mem Member.name this.1
  have hmMem : m ∈ s.members := (mem_of_findName _ _ _ hm).1
  have hmName : m.name = src := (mem_of_findName _ _ _ hm).2
  unfold dropdownMove at hs'
  rw [if_neg hne, hm] at hs'
  have hHM : hasMember
      (updateTags s.members src
        (fun tgs => tgs.filter (fun tg => !((tagsToMove roster m.tags src).contains tg)))) src
      = true := by
    rw [hasMember_iff, memberNames_updateTags]
    exact hsrcN
  simp only [hHM, Bool.not_true, Bool.false_eq_true, if_false] at hs'
  have hchase : ∀ m' ∈ updateTags
      (updateTags s.members src
        (fun tgs => tgs.filter (fun tg => !((tagsToMove roster m.tags src).contains tg))))
      src
      (fun tgs => jsSetDedup (tgs ++ (tagsToMove roster m.tags src).filter
        (fun tg => !(isBlankTag tg)))),
      (m'.name ≠ src ∧ m' ∈ s.members) ∨
      (m'.name = src ∧ ∀ tg ∈ m'.tags, ∃ z ∈ s.members, z.name = src ∧ tg ∈ z.tags) := by
    intro m' hm'
    rcases (mem_updateTags _ _ _ _).1 hm' with ⟨w, hw, hwe⟩
    rcases (mem_updateTags _ _ _ _).1 hw with ⟨z, hz, hze⟩
    have hwname : w.name = z.name := by
      rw [hze]
      exact updateTags_keeps_name z src _
    by_cases hzn : z.name = src
    · right
      have hwn : w.name = src := hwname.trans hzn
      rw [hwe, if_pos hwn]
      refine ⟨hwn, ?_⟩
      intro tg htg
      simp only [mem_jsSetDedup, List.mem_append] at htg
      rcases htg with h | h
      · rw [hze, if_pos hzn] at h
        simp only at h
        exact ⟨z, hz, hzn, List.mem_of_mem_filter h⟩
      · have := List.mem_of_mem_filter h
        exact ⟨m, hmMem, hmName, tagsToMove_subset roster m.tags src tg this⟩
    · left
      have hwz : w = z := by rw [hze, if_neg hzn]
      have hwn : w.name ≠ src := by rw [hwz]; exact hzn
      rw [hwe, if_neg hwn]
      refine ⟨hwn, ?_⟩
      rw [hwz]
      exact hz
  have hfind3 : findName
      (updateTags
        (updateTags s.members src
          (fun tgs => tgs.filter (fun tg => !((tagsToMove roster m.tags src).contains tg))))
        src
        (fun tgs => jsSetDedup (tgs ++ (tagsToMove roster m.tags src).filter
          (fun tg => !(isBlankTag tg))))) src =
      some { m with
        tags := jsSetDedup ((m.tags.filter
          (fun tg => !((tagsToMove roster m.tags src).contains tg))) ++
          (tagsToMove roster m.tags src).filter (fun tg => !(isBlankTag tg))) } := by
    rw [findName_updateTags_self, findName_updateTags_self, hm]
    rfl
  rw [hfind3] at hs'
  simp only at hs'
  cases hb : (jsSetDedup ((m.tags.filter
      (fun tg => !((tagsToMove roster m.tags src).contains tg))) ++
      (tagsToMove roster m.tags src).filter (fun tg => !(isBlankTag tg)))).isEmpty
  · simp only [hb, Bool.false_eq_true, if_false, Option.some.injEq] at hs'
    subst hs'
    exact hchase
  · simp only [hb, if_true, Option.some.injEq] at hs'
    subst hs'
    intro m' hm'
    exact hchase m' ((mem_removeMember _ _ _).1 hm').1

theorem dropdown_self_disjoint (roster : Roster) (s : TeamState) (src : String)
    (m : Member) (s' : TeamState) (hm : findName s.members src = some m)
    (hne : src ≠ "") (hD : disjointTags s)
    (hs' : dropdownMove roster s src src = some s') : disjointTags s' := by
  intro m1 hm1 m2 hm2 hnn tg htg
  rcases dropdown_self_members roster s src m s' hm hne hs' m1 hm1 with
    ⟨h1n, h1mem⟩ | ⟨h1n, h1sub⟩
  · rcases dropdown_self_members roster s src m s' hm hne hs' m2 hm2 with
      ⟨h2n, h2mem⟩ | ⟨h2n, h2sub⟩
    · exact hD m1 h1mem m2 h2mem hnn tg htg
    · intro hc
      rcases h2sub tg hc with ⟨z, hz, hzn, hztg⟩
      exact hD m1 h1mem z hz (by rw [hzn]; exact h1n) tg htg hztg
  · rcases dropdown_self_members roster s src m s' hm hne hs' m2 hm2 with
      ⟨h2n, h2mem⟩ | ⟨h2n, h2sub⟩
    · rcases h1sub tg htg with ⟨z, hz, hzn, hztg⟩
      exact hD z hz m2 h2mem (by rw [hzn, ← h1n]; exact hnn) tg hztg
    · exact absurd (h1n.trans h2n.symm) hnn

/-! ### Claims -/

theorem mem_of_mem_ite_remove (b : Bool) (ms : List Member) (n : String) (x : Member)
    (hx : x ∈ (if b = true then removeMember ms n else ms)) : x ∈ ms := by
  cases b with
  | false => simpa using hx
  | true => exact ((mem_removeMember _ _ _).1 (by simpa using hx)).1

/-- C8: the individual-mode result list is the full expert roster — the
output is a permutation of the input — sorted descending by rank score,
with ties broken by ascending lexicographic identifier (the rankBefore
ordering), and the output is deterministic: any reordering of the same
roster sorts to the identical list. -/
theorem claim8_individual_ranking (l : List RankedProf) :
    List.Perm (sortIndividual l) l ∧ (sortIndividual l).Sorted rankBefore ∧
    (∀ l2 : List RankedProf, List.Perm l l2 → sortIndividual l = sortIndividual l2) := by
  refine ⟨List.perm_insertionSort rankBefore l, List.sorted_insertionSort rankBefore l, ?_⟩
  intro l2 hperm
  exact List.eq_of_perm_of_sorted
    ((List.perm_insertionSort rankBefore l).trans
      (hperm.trans (List.perm_insertionSort rankBefore l2).symm))
    (List.sorted_insertionSort rankBefore l)
    (List.sorted_insertionSort rankBefore l2)

theorem claim8_witness :
    List.Perm ([⟨"b", (1 : ℚ)⟩, ⟨"a", 2⟩] : List RankedProf) [⟨"a", 2⟩, ⟨"b", 1⟩] ∧
    sortIndividual [⟨"b", (1 : ℚ)⟩, ⟨"a", 2⟩] = sortIndividual [⟨"a", 2⟩, ⟨"b", 1⟩] :=
  ⟨by decide, (claim8_individual_ranking _).2.2 _ (by decide)⟩

/-- C9: after any dropdown reassignment the destination member's assigned
tag list contains no duplicate tags: the moved tags are unioned into the
destination's existing list through a JS Set, which de-duplicates. -/
theorem claim9_dest_nodup (roster : Roster) (s : TeamState) (src dest : String)
    (s' : TeamState) (hne : dest ≠ "")
    (hs' : dropdownMove roster s src dest = some s') :
    ∀ d, findName s'.members dest = some d → d.tags.Nodup := by
  intro d hd
  obtain ⟨hdmem, hdname⟩ := mem_of_findName _ _ _ hd
  unfold dropdownMove at hs'
  rw [if_neg hne] at hs'
  cases hfind : findName s.members src with
  | none =>
    rw [hfind] at hs'
    cases hs'
  | some m =>
    rw [hfind] at hs'
    simp only [Option.some.injEq] at hs'
    subst hs'
    have hdmem3 := mem_of_mem_ite_remove _ _ _ _ hdmem
    rcases (mem_updateTags _ _ _ _).1 hdmem3 with ⟨y, hy, hye⟩
    by_cases hyn : y.name = dest
    · rw [hye, if_pos hyn]
      exact jsSetDedup_nodup _
    · exfalso
      rw [hye, if_neg hyn] at hdname
      exact hyn hdname

theorem claim9_witness :
    ("Q" : String) ≠ "" ∧
    dropdownMove exRW exSW "P" "Q" =
      some ⟨["Q", "X"], [exMember "X" ["z"], exMember "Q" ["a", "b"]]⟩ ∧
    ∀ d, findName [exMember "X" ["z"], exMember "Q" ["a", "b"]] "Q" = some d →
      d.tags.Nodup := by
  refine ⟨by decide, by decide, ?_⟩
  have h := claim9_dest_nodup exRW exSW "P" "Q"
    ⟨["Q", "X"], [exMember "X" ["z"], exMember "Q" ["a", "b"]]⟩ (by decide) (by decide)
  exact h

/-- C7: no tag is assigned to two different team members simultaneously:
initial construction from a backend team that assigns each tag to at most
one member name yields pairwise-disjoint assigned sets, and both the swap
transition and the dropdown transition preserve pairwise disjointness —
moving tags to a destination always removes them from the member that
held them. -/
theorem claim7_tag_disjointness :
    (∀ team : List Member, disjointMemberTags team → disjointTags (initTeam team)) ∧
    (∀ (roster : Roster) (s : TeamState) (p t : String),
      WF s → disjointTags s → disjointTags (swapMove roster s p t)) ∧
    (∀ (roster : Roster) (s : TeamState) (src dest : String) (s' : TeamState),
      WF s → disjointTags s → dropdownMove roster s src dest = some s' →
      disjointTags s') := by
  refine ⟨initTeam_disjoint, ?_, ?_⟩
  · intro roster s p t hWF hD
    exact swap_disjoint_after roster s p t hWF hD
  · intro roster s src dest s' hWF hD hs'
    by_cases hne : dest = ""
    · subst hne
      rw [dropdown_noop_empty] at hs'
      simp only [Option.some.injEq] at hs'
      subst hs'
      exact hD
    · cases hfind : findName s.members src with
      | none =>
        rw [dropdown_none_of_missing roster s src dest hne hfind] at hs'
        cases hs'
      | some m =>
        by_cases hds : dest = src
        · subst hds
          exact dropdown_self_disjoint roster s dest m s' hfind hne hD hs'
        · exact dropdown_disjoint_after roster s src dest m s' hWF hfind hne hds hD hs'

theorem claim7_witness :
    disjointMemberTags [exMember "P" ["a"], exMember "Q" ["b"]] ∧
    disjointTags (initTeam [exMember "P" ["a"], exMember "Q" ["b"]]) :=
  ⟨by decide, claim7_tag_disjointness.1 _ (by decide)⟩

/-- C5: team-member ordering is stable first-seen order with no
duplicates: the initial ordering is the first-seen de-duplication of the
team entry names and the initial state is well-formed (duplicate-free
ordering matching the member map); every transition preserves
well-formedness; every transition preserves the relative order of the
members it retains; and an identical ordered sequence of transitions
applied to an identical initial TeamAssignment produces an identical
resulting TeamAssignment. -/
theorem claim5_ordering :
    (∀ team : List Member,
      (initTeam team).order = jsSetDedup (team.map Member.name) ∧ WF (initTeam team)) ∧
    (∀ (roster : Roster) (s : TeamState) (mv : Move), WF s → WF (applyMove roster s mv)) ∧
    (∀ (roster : Roster) (s : TeamState) (mv : Move), WF s →
      commonSeq s.order (applyMove roster s mv).order =
        commonSeq (applyMove roster s mv).order s.order) ∧
    (∀ (roster : Roster) (s1 s2 : TeamState) (moves : List Move),
      s1 = s2 → applyMoves roster s1 moves = applyMoves roster s2 moves) := by
  refine ⟨fun team => ⟨initTeam_order team, initTeam_WF team⟩,
    applyMove_WF, applyMove_stable, ?_⟩
  intro roster s1 s2 moves h
  rw [h]

theorem claim5_witness :
    WF exSW ∧ WF (applyMove exRW exSW (Move.drop "P" "Q")) :=
  ⟨by decide, claim5_ordering.2.1 exRW exSW (Move.drop "P" "Q") (by decide)⟩

/-- C2 is violated as stated: a single-tag dropdown move of a
whitespace-only tag to a destination new to the team produces a member
(the destination) whose assigned tag set is empty and which is not
removed from the team or its ordering. -/
theorem claim2_counterexample :
    dropdownMove exR2 exS2 "A" "B" = some ⟨["B"], [exMember "B" []]⟩ ∧
    exMember "B" [] ∈ [exMember "B" []] ∧ (exMember "B" []).tags = [] ∧
    "B" ∈ (["B"] : List String) := by decide

/-- C2 (amended): after every swap transition every member's assigned tag
set is non-empty provided every member's set was non-empty before; the
same holds for a dropdown transition provided the destination was already
a team member or the filtered moved tag set is non-empty — a destination
new to the team whose filtered moved set is empty is the exception and
remains in the team with an empty set. -/
theorem claim2_nonempty_amended :
    (∀ (roster : Roster) (s : TeamState) (p t : String),
      WF s → NonemptyTags s → NonemptyTags (swapMove roster s p t)) ∧
    (∀ (roster : Roster) (s : TeamState) (src dest : String) (m : Member) (s' : TeamState),
      WF s → NonemptyTags s → findName s.members src = some m →
      dest ≠ "" → dest ≠ src →
      (dest ∈ memberNames s.members ∨
        (tagsToMove roster m.tags dest).filter (fun tg => !(isBlankTag tg)) ≠ []) →
      dropdownMove roster s src dest = some s' → NonemptyTags s') :=
  ⟨fun roster s p t hWF hNE => swap_nonempty_after roster s p t hWF hNE,
   fun roster s src dest m s' hWF hNE hm hne hds hcond hs' =>
     dropdown_nonempty_after roster s src dest m s' hWF hm hne hds hNE hcond hs'⟩

theorem claim2_witness :
    (WF exSW ∧ NonemptyTags exSW) ∧
    NonemptyTags (swapMove exRW exSW "Q" "a") :=
  ⟨⟨by decide, by decide⟩,
   claim2_nonempty_amended.1 exRW exSW "Q" "a" (by decide) (by decide)⟩

theorem newProfCommonCount_pos (roster : Roster) (T : List String) (n : String) :
    1 ≤ newProfCommonCount roster T n := by
  unfold newProfCommonCount
  by_cases h : profTagCount roster T n = 0
  · simp [h]
  · simp only [h, if_false]
    exact Nat.one_le_iff_ne_zero.2 h

theorem filter_not_contains_nil (l : List String) :
    l.filter (fun tg => !(([] : List String).contains tg)) = l := by
  rw [List.filter_eq_self]
  intro a ha
  simp

theorem filter_out_mid (l1 l2 : List String) (src dest : String)
    (h1 : src ∉ l1) (h2 : src ∉ l2) (hds : dest ≠ src) :
    (l1 ++ src :: dest :: l2).filter (fun x => x != src) = l1 ++ dest :: l2 := by
  rw [List.filter_append, filter_bne_of_not_mem l1 src h1]
  have hsrc : ((src : String) != src) = false := by simp
  have hdest : ((dest : String) != src) = true := by simp [bne_iff_ne, hds]
  rw [List.filter_cons, hsrc]
  simp only [Bool.false_eq_true, if_false]
  rw [List.filter_cons, hdest]
  simp only [if_true]
  rw [filter_bne_of_not_mem l2 src h2]

/-- C1 is violated as stated: a multi-tag reassignment request whose
destination shares zero tags with the source's assigned set is not a
no-op when the destination is new to the team — the destination is added
to the membership and the ordering (with an empty assigned set). -/
theorem claim1_counterexample :
    findName exS1.members "P" = some (exMember "P" ["a", "b"]) ∧
    ((exR1 "a").all (fun p => p.name != "Q") = true ∧
      (exR1 "b").all (fun p => p.name != "Q") = true) ∧
    dropdownMove exR1 exS1 "P" "Q" =
      some ⟨["P", "Q"], [exMember "P" ["a", "b"], exMember "Q" []]⟩ ∧
    memberNames [exMember "P" ["a", "b"], exMember "Q" []] ≠ memberNames exS1.members ∧
    (["P", "Q"] : List String) ≠ exS1.order := by decide

/-- C1 (amended): for a multi-tag reassignment request (source holding
more than one tag) whose destination shares zero tags with the source's
assigned set, no tags move and no exception is raised; when the
destination is already a team member the TeamAssignment is entirely
unchanged (the rejection is a true no-op), but when the destination is
new to the team it is inserted into the membership and the ordering
immediately after the source, with an empty assigned tag set. -/
theorem claim1_zero_overlap (roster : Roster) (s : TeamState) (src dest : String)
    (m : Member) (hWF : WF s) (hT : TagsWF s) (hm : findName s.members src = some m)
    (hlen : 1 < m.tags.length)
    (hzero : ∀ tg ∈ m.tags, ∀ p ∈ roster tg, p.name ≠ dest)
    (hne : dest ≠ "") (hds : dest ≠ src) :
    (dest ∈ memberNames s.members → dropdownMove roster s src dest = some s) ∧
    (dest ∉ memberNames s.members →
      ∃ l1 l2, s.order = l1 ++ src :: l2 ∧
        dropdownMove roster s src dest =
          some ⟨l1 ++ src :: dest :: l2, s.members ++ [⟨dest, "", "", "", "", []⟩]⟩) := by
  have hmv : tagsToMove roster m.tags dest = [] := by
    unfold tagsToMove
    rw [if_pos ⟨newProfCommonCount_pos roster m.tags dest, hlen⟩]
    rw [List.filter_eq_nil_iff]
    intro tg htg hb
    rw [Bool.and_eq_true] at hb
    rcases hb with ⟨-, hany⟩
    rw [List.any_eq_true] at hany
    rcases hany with ⟨p, hp, hpn⟩
    rw [beq_iff_eq] at hpn
    exact hzero tg htg p hp hpn
  have hremne : m.tags.filter
      (fun tg => !((tagsToMove roster m.tags dest).contains tg)) ≠ [] := by
    rw [hmv, filter_not_contains_nil]
    intro h0
    rw [h0] at hlen
    simp at hlen
  have hms1 : updateTags s.members src
      (fun tgs => tgs.filter (fun tg => !((tagsToMove roster m.tags dest).contains tg)))
      = s.members := by
    apply updateTags_eq_self
    intro mm hmm hname
    rw [hmv]
    exact filter_not_contains_nil mm.tags
  have heq := dropdown_eq_explicit roster s src dest m hWF hm hne hds
  obtain ⟨hOrd, hNm, hON, hNO⟩ := hWF
  constructor
  · intro hdm
    rw [heq]
    simp only [if_pos hdm, if_neg hremne]
    rw [hms1]
    have hms3 : updateTags s.members dest
        (fun tgs => jsSetDedup (tgs ++ (tagsToMove roster m.tags dest).filter
          (fun tg => !(isBlankTag tg)))) = s.members := by
      apply updateTags_eq_self
      intro mm hmm hname
      rw [hmv]
      simp only [List.filter_nil, List.append_nil]
      exact jsSetDedup_eq_self _ (hT mm hmm)
    rw [hms3]
  · intro hdm
    have hsrcN : src ∈ memberNames s.members := by
      have := mem_of_findName _ _ _ hm
      exact this.2 ▸ List.mem_map_of_mem Member.name this.1
    have hsrcO : src ∈ s.order := hNO src hsrcN
    obtain ⟨l1, l2, hsplit⟩ := List.append_of_mem hsrcO
    have hnd : (l1 ++ src :: l2).Nodup := hsplit ▸ hOrd
    have hsrc1 : src ∉ l1 := by
      rcases List.nodup_append.1 hnd with ⟨-, -, hdisj⟩
      intro hc
      exact hdisj hc (List.mem_cons_self _ _)
    refine ⟨l1, l2, hsplit, ?_⟩
    rw [heq]
    simp only [if_neg hdm, if_neg hremne]
    rw [hms1]
    have hnewm : newMemberInfo roster (tagsToMove roster m.tags dest) dest =
        (⟨dest, "", "", "", "", []⟩ : Member) := by
      rw [hmv]
      rfl
    rw [hnewm]
    have hins : jsInsertAfter s.order src dest = l1 ++ src :: dest :: l2 := by
      unfold jsInsertAfter
      rw [if_pos hsrcO, hsplit]
      exact insertAfterFirst_decomp l1 l2 src dest hsrc1
    rw [hins]
    have hms3 : updateTags (s.members ++ [(⟨dest, "", "", "", "", []⟩ : Member)]) dest
        (fun tgs => jsSetDedup (tgs ++ (tagsToMove roster m.tags dest).filter
          (fun tg => !(isBlankTag tg)))) =
        s.members ++ [(⟨dest, "", "", "", "", []⟩ : Member)] := by
      apply updateTags_eq_self
      intro mm hmm hname
      rw [hmv]
      simp only [List.filter_nil, List.append_nil]
      rcases List.mem_append.1 hmm with h | h
      · exact absurd (hname ▸ List.mem_map_of_mem Member.name h) hdm
      · rcases List.mem_singleton.1 h with rfl
        rfl
    rw [hms3]

theorem claim1_witness :
    (WF exS1b ∧ TagsWF exS1b ∧ findName exS1b.members "P" = some (exMember "P" ["a", "b"]) ∧
      "Q" ∈ memberNames exS1b.members) ∧
    dropdownMove exR1 exS1b "P" "Q" = some exS1b :=
  ⟨⟨by decide, by decide, by decide, by decide⟩,
   (claim1_zero_overlap exR1 exS1b "P" "Q" (exMember "P" ["a", "b"]) (by decide) (by decide)
     (by decide) (by decide) (by decide) (by decide) (by decide)).1 (by decide)⟩

/-- C3 is violated as stated: in a multi-tag move where the destination
possesses both tags of the source (one of which is whitespace-only), the
moved set is not the full shared subset — the whitespace tag stays with
the source and is not moved to the destination. -/
theorem claim3_counterexample :
    (" " ∈ (exMember "P" ["a", " "]).tags) ∧
    ((exR3 " ").any (fun p => p.name == "Q") = true) ∧
    (1 < (exMember "P" ["a", " "]).tags.length) ∧
    dropdownMove exR3 exS3 "P" "Q" =
      some ⟨["P", "Q"], [exMember "P" [" "], exMember "Q" ["a"]]⟩ ∧
    (" " ∈ (exMember "P" [" "]).tags ∧ " " ∉ (exMember "Q" ["a"]).tags) := by decide

/-- C3 (amended): in a multi-tag move (source holding more than one tag),
the moved set is exactly the non-blank subset of the source's tags that
the destination also possesses per the roster: the source retains exactly
the complement (and is removed if that is empty), and the destination's
assigned list becomes the de-duplicating union of its previous list with
exactly that subset; when the destination overlaps on exactly one
non-blank tag, exactly that one tag moves. -/
theorem claim3_moved_subset (roster : Roster) (s : TeamState) (src dest : String)
    (m : Member) (s' : TeamState) (hWF : WF s) (hm : findName s.members src = some m)
    (hlen : 1 < m.tags.length) (hne : dest ≠ "") (hds : dest ≠ src)
    (hs' : dropdownMove roster s src dest = some s') :
    (tagsToMove roster m.tags dest =
      m.tags.filter (fun tg => !(isBlankTag tg) && (roster tg).any (fun p => p.name == dest))) ∧
    ((tagsToMove roster m.tags dest).filter (fun tg => !(isBlankTag tg)) =
      tagsToMove roster m.tags dest) ∧
    (findName s'.members src =
      if m.tags.filter (fun tg => !((tagsToMove roster m.tags dest).contains tg)) = []
      then none
      else some { m with
        tags := m.tags.filter (fun tg => !((tagsToMove roster m.tags dest).contains tg)) }) ∧
    (∀ d, findName s.members dest = some d →
      findName s'.members dest =
        some { d with tags := jsSetDedup (d.tags ++ tagsToMove roster m.tags dest) }) := by
  have hmv : tagsToMove roster m.tags dest =
      m.tags.filter (fun tg => !(isBlankTag tg) && (roster tg).any (fun p => p.name == dest)) := by
    unfold tagsToMove
    rw [if_pos ⟨newProfCommonCount_pos roster m.tags dest, hlen⟩]
  have hfil : (tagsToMove roster m.tags dest).filter (fun tg => !(isBlankTag tg)) =
      tagsToMove roster m.tags dest := by
    rw [List.filter_eq_self]
    intro tg htg
    rw [hmv, List.mem_filter, Bool.and_eq_true] at htg
    exact htg.2.1
  refine ⟨hmv, hfil, dropdown_src_after roster s src dest m s' hWF hm hne hds hs', ?_⟩
  intro d hd
  rw [dropdown_dest_after roster s src dest m s' hWF hm hne hds hs', hd, hfil]

theorem claim3_witness :
    (WF exSW ∧ findName exSW.members "P" = some (exMember "P" ["a", "b"]) ∧
      1 < (exMember "P" ["a", "b"]).tags.length ∧
      dropdownMove exRW exSW "P" "Q" =
        some ⟨["Q", "X"], [exMember "X" ["z"], exMember "Q" ["a", "b"]]⟩) ∧
    tagsToMove exRW (exMember "P" ["a", "b"]).tags "Q" =
      (exMember "P" ["a", "b"]).tags.filter
        (fun tg => !(isBlankTag tg) && (exRW tg).any (fun p => p.name == "Q")) :=
  ⟨⟨by decide, by decide, by decide, by decide⟩,
   (claim3_moved_subset exRW exSW "P" "Q" (exMember "P" ["a", "b"])
     ⟨["Q", "X"], [exMember "X" ["z"], exMember "Q" ["a", "b"]]⟩
     (by decide) (by decide) (by decide) (by decide) (by decide) (by decide)).1⟩

/-- C4 is violated as stated: applying the same dropdown move twice is
not always a no-op on the second application — when the first move leaves
the source with a single tag, the second application moves that remaining
tag as well, yielding a different TeamAssignment. -/
theorem claim4_counterexample :
    dropdownMove exR4 exS4 "P" "Q" =
      some ⟨["P", "Q"], [exMember "P" ["c"], exMember "Q" ["a", "b"]]⟩ ∧
    dropdownMove exR4 ⟨["P", "Q"], [exMember "P" ["c"], exMember "Q" ["a", "b"]]⟩ "P" "Q" =
      some ⟨["Q"], [exMember "Q" ["a", "b", "c"]]⟩ ∧
    (⟨["Q"], [exMember "Q" ["a", "b", "c"]]⟩ : TeamState) ≠
      ⟨["P", "Q"], [exMember "P" ["c"], exMember "Q" ["a", "b"]]⟩ := by decide

/-- C4 (amended): the swap action is idempotent whenever at most one
member holds the tag; the dropdown action applied twice with identical
source and destination is a no-op on the second application provided the
source retains at least two assigned tags after the first application;
when the first application emptied and removed the source, the second
application fails on the missing source instead of being a no-op. -/
theorem claim4_idempotence :
    (∀ (roster : Roster) (s : TeamState) (p t : String), WF s →
      (∀ x ∈ s.members, ∀ y ∈ s.members, t ∈ x.tags → t ∈ y.tags → x.name = y.name) →
      swapMove roster (swapMove roster s p t) p t = swapMove roster s p t) ∧
    (∀ (roster : Roster) (s : TeamState) (src dest : String) (m : Member)
      (s1 : TeamState) (m1 : Member), WF s → TagsWF s →
      findName s.members src = some m → dest ≠ "" → dest ≠ src →
      dropdownMove roster s src dest = some s1 →
      findName s1.members src = some m1 → 2 ≤ m1.tags.length →
      dropdownMove roster s1 src dest = some s1) ∧
    (∀ (roster : Roster) (s1 : TeamState) (src dest : String),
      dest ≠ "" → findName s1.members src = none →
      dropdownMove roster s1 src dest = none) := by
  refine ⟨?_, ?_, ?_⟩
  · intro roster s p t hWF huniq
    cases hold : firstHolder s.members t with
    | none =>
      rw [swap_noop_none roster s p t hold]
      exact swap_noop_none roster s p t hold
    | some om =>
      by_cases hp : p = om.name
      · rw [swap_noop_self roster s p t om hold hp]
        exact swap_noop_self roster s p t om hold hp
      · have homMem : om ∈ s.members := List.mem_of_find?_eq_some hold
        have homTag : t ∈ om.tags := by
          have := List.find?_some hold
          simpa using this
        cases hold2 : firstHolder (swapMove roster s p t).members t with
        | none => exact swap_noop_none roster _ p t hold2
        | some h2 =>
          have hh2mem : h2 ∈ (swapMove roster s p t).members :=
            List.mem_of_find?_eq_some hold2
          have hh2tag : t ∈ h2.tags := by
            have := List.find?_some hold2
            simpa using this
          have hname : p = h2.name := by
            rcases swap_member_cases roster s p t om hWF hold hp h2 hh2mem with
              ⟨hno, hnp, hmem⟩ | ⟨hno, hrem, heq⟩ | ⟨hnp, heq⟩
            · exact absurd (huniq h2 hmem om homMem hh2tag homTag) hno
            · exfalso
              rw [heq] at hh2tag
              simp only at hh2tag
              exact (mem_filter_bne _ _ _ hh2tag).2 rfl
            · exact hnp.symm
          exact swap_noop_self roster _ p t h2 hold2 hname
  · intro roster s src dest m s1 m1 hWF hT hm hne hds hs1 hm1 hlen2
    have hWF1 : WF s1 := dropdown_WF_after roster s src dest m s1 hWF hm hne hds hs1
    have hT1 : TagsWF s1 := dropdown_tagsWF_after roster s src dest m s1 hWF hT hm hne hds hs1
    have hval := hm1
    rw [dropdown_src_after roster s src dest m s1 hWF hm hne hds hs1] at hval
    by_cases hrem : m.tags.filter
        (fun tg => !((tagsToMove roster m.tags dest).contains tg)) = []
    · rw [if_pos hrem] at hval
      cases hval
    · rw [if_neg hrem] at hval
      have hm1eq : m1 = { m with
          tags := m.tags.filter (fun tg => !((tagsToMove roster m.tags dest).contains tg)) } :=
        (Option.some.injEq _ _ ▸ hval).symm
      have hdest1 := dropdown_dest_after roster s src dest m s1 hWF hm hne hds hs1
      have hdestN1 : dest ∈ memberNames s1.members := by
        have := mem_of_findName _ _ _ hdest1
        exact this.2 ▸ List.mem_map_of_mem Member.name this.1
      have hlenM : 1 < m.tags.length := by
        by_contra hc
        rcases hcT : m.tags with _ | ⟨a, rest⟩
        · apply hrem
          rw [hcT]
          rfl
        · rcases hcR : rest with _ | ⟨b, rest2⟩
          · apply hrem
            rw [hcT, hcR]
            have hmvA : tagsToMove roster [a] dest = [a] := by
              unfold tagsToMove
              rw [if_neg]
              rintro ⟨-, h2⟩
              simp at h2
            rw [hmvA]
            simp
          · apply hc
            rw [hcT, hcR]
            simp
      have hmv1 : tagsToMove roster m.tags dest =
          m.tags.filter (fun tg => !(isBlankTag tg) &&
            (roster tg).any (fun p => p.name == dest)) := by
        unfold tagsToMove
        rw [if_pos ⟨newProfCommonCount_pos roster m.tags dest, hlenM⟩]
      have hmv2 : tagsToMove roster m1.tags dest = [] := by
        unfold tagsToMove
        rw [if_pos ⟨newProfCommonCount_pos roster m1.tags dest, hlen2⟩]
        rw [List.filter_eq_nil_iff]
        intro tg htg hb
        rw [hm1eq] at htg
        simp only at htg
        have hfacts := mem_filter_not_contains _ _ _ htg
        apply hfacts.2
        rw [hmv1, List.mem_filter]
        exact ⟨hfacts.1, hb⟩
      rw [dropdown_eq_explicit roster s1 src dest m1 hWF1 hm1 hne hds]
      simp only [hmv2, if_pos hdestN1]
      have hrem2 : m1.tags.filter (fun tg => !(([] : List String).contains tg)) = m1.tags :=
        filter_not_contains_nil _
      rw [hrem2]
      have hm1ne : m1.tags ≠ [] := by
        intro h0
        rw [h0] at hlen2
        simp at hlen2
      rw [if_neg hm1ne]
      have hid1 : updateTags s1.members src
          (fun tgs => tgs.filter (fun tg => !(([] : List String).contains tg))) =
          s1.members := by
        apply updateTags_eq_self
        intro mm hmm hname
        exact filter_not_contains_nil _
      rw [hid1]
      have hid3 : updateTags s1.members dest
          (fun tgs => jsSetDedup (tgs ++ ([] : List String).filter
            (fun tg => !(isBlankTag tg)))) = s1.members := by
        apply updateTags_eq_self
        intro mm hmm hname
        simp only [List.filter_nil, List.append_nil]
        exact jsSetDedup_eq_self _ (hT1 mm hmm)
      rw [hid3]
      rw [if_neg hm1ne]
  · intro roster s1 src dest hne hfind
    exact dropdown_none_of_missing roster s1 src dest hne hfind

theorem claim4_witness :
    (WF exS4 ∧ TagsWF exS4 ∧
      findName exS4.members "P" = some (exMember "P" ["a", "b", "c"]) ∧
      dropdownMove exR4b exS4 "P" "Q" =
        some ⟨["P", "Q"], [exMember "P" ["b", "c"], exMember "Q" ["a"]]⟩ ∧
      findName [exMember "P" ["b", "c"], exMember "Q" ["a"]] "P" =
        some (exMember "P" ["b", "c"]) ∧
      2 ≤ (exMember "P" ["b", "c"]).tags.length) ∧
    dropdownMove exR4b ⟨["P", "Q"], [exMember "P" ["b", "c"], exMember "Q" ["a"]]⟩ "P" "Q" =
      some ⟨["P", "Q"], [exMember "P" ["b", "c"], exMember "Q" ["a"]]⟩ :=
  ⟨⟨by decide, by decide, by decide, by decide, by decide, by decide⟩,
   claim4_idempotence.2.1 exR4b exS4 "P" "Q" (exMember "P" ["a", "b", "c"])
     ⟨["P", "Q"], [exMember "P" ["b", "c"], exMember "Q" ["a"]]⟩ (exMember "P" ["b", "c"])
     (by decide) (by decide) (by decide) (by decide) (by decide) (by decide)
     (by decide) (by decide)⟩

/-- C6 is violated as stated: a single-tag dropdown move whose
preconditions hold (the destination possesses the tag per the roster and
the tag is assigned to the source) does not add the tag to the
destination when the tag is whitespace-only — the tag is removed from the
source (which is dropped) but filtered out of the assignment, leaving the
destination with an empty set. -/
theorem claim6_counterexample :
    ((exR6 " ").any (fun p => p.name == "Q") = true) ∧
    (" " ∈ (exMember "P" [" "]).tags) ∧
    dropdownMove exR6 exS6 "P" "Q" = some ⟨["Q"], [exMember "Q" []]⟩ ∧
    (" " ∉ (exMember "Q" []).tags) := by decide

/-- C6 (amended): for a single-tag move whose preconditions hold, the
effect is exactly: the tag leaves the source's assigned set (the source
is removed when its set empties) and is appended to the destination's
set, every other member is untouched, and a destination new to the team
enters the ordering immediately after the source.  For the swap action
this holds for any tag; for the dropdown action the tag is additionally
required to be non-blank — a whitespace-only tag is removed from the
source but never assigned to the destination. -/
theorem claim6_single_tag_effect :
    (∀ (roster : Roster) (s : TeamState) (p t : String) (om : Member),
      WF s → firstHolder s.members t = some om → p ≠ om.name →
      (∃ pr ∈ roster t, pr.name = p) →
      (findName (swapMove roster s p t).members om.name =
        if om.tags.filter (fun tg => tg != t) = [] then none
        else some { om with tags := om.tags.filter (fun tg => tg != t) }) ∧
      (findName (swapMove roster s p t).members p =
        some (match findName s.members p with
          | some d => { d with tags := d.tags ++ [t] }
          | none => { swapNewMember roster t p with tags := [t] })) ∧
      (∀ x, x ≠ om.name → x ≠ p →
        findName (swapMove roster s p t).members x = findName s.members x) ∧
      (p ∉ memberNames s.members →
        ∃ l1 l2, s.order = l1 ++ om.name :: l2 ∧
          (swapMove roster s p t).order =
            if om.tags.filter (fun tg => tg != t) = [] then l1 ++ p :: l2
            else l1 ++ om.name :: p :: l2)) ∧
    (∀ (roster : Roster) (s : TeamState) (src dest t : String) (m : Member) (s' : TeamState),
      WF s → findName s.members src = some m → m.tags = [t] →
      isBlankTag t = false → (roster t).any (fun pr => pr.name == dest) = true →
      dest ≠ "" → dest ≠ src →
      dropdownMove roster s src dest = some s' →
      (findName s'.members src = none) ∧
      (findName s'.members dest =
        some (match findName s.members dest with
          | some d => { d with tags := jsSetDedup (d.tags ++ [t]) }
          | none => { newMemberInfo roster [t] dest with tags := [t] })) ∧
      (∀ x, x ≠ src → x ≠ dest → findName s'.members x = findName s.members x) ∧
      (dest ∉ memberNames s.members →
        ∃ l1 l2, s.order = l1 ++ src :: l2 ∧ s'.order = l1 ++ dest :: l2) ∧
      (dest ∈ memberNames s.members →
        s'.order = s.order.filter (fun x => x != src))) := by
  constructor
  · intro roster s p t om hWF hold hp hposs
    refine ⟨swap_src_after roster s p t om hWF hold hp,
      swap_dest_after roster s p t om hWF hold hp,
      fun x hxo hxp => swap_other_after roster s p t om x hWF hold hp hxo hxp, ?_⟩
    intro hpm
    obtain ⟨hOrd, hNm, hON, hNO⟩ := hWF
    have homMem : om ∈ s.members := List.mem_of_find?_eq_some hold
    have homN : om.name ∈ memberNames s.members := List.mem_map_of_mem Member.name homMem
    have homO : om.name ∈ s.order := hNO om.name homN
    obtain ⟨l1, l2, hsplit⟩ := List.append_of_mem homO
    have hnd : (l1 ++ om.name :: l2).Nodup := hsplit ▸ hOrd
    have h1 : om.name ∉ l1 := by
      rcases List.nodup_append.1 hnd with ⟨-, -, hdisj⟩
      intro hc
      exact hdisj hc (List.mem_cons_self _ _)
    have h2 : om.name ∉ l2 := by
      rcases List.nodup_append.1 hnd with ⟨-, hnd2, -⟩
      exact (List.nodup_cons.1 hnd2).1
    have hins : jsInsertAfter s.order om.name p = l1 ++ om.name :: p :: l2 := by
      unfold jsInsertAfter
      rw [if_pos homO, hsplit]
      exact insertAfterFirst_decomp l1 l2 om.name p h1
    refine ⟨l1, l2, hsplit, ?_⟩
    rw [swap_order_after roster s p t om ⟨hOrd, hNm, hON, hNO⟩ hold hp]
    by_cases hrem : om.tags.filter (fun tg => tg != t) = []
    · rw [if_pos hrem, if_pos hrem, if_neg hpm, hins]
      exact filter_out_mid l1 l2 om.name p h1 h2 hp
    · rw [if_neg hrem, if_neg hrem, if_neg hpm, hins]
  · intro roster s src dest t m s' hWF hm htags hblank hposs hne hds hs'
    have hmv : tagsToMove roster m.tags dest = [t] := by
      rw [htags]
      unfold tagsToMove
      rw [if_neg]
      rintro ⟨-, h2⟩
      simp at h2
    have hrem : m.tags.filter
        (fun tg => !((tagsToMove roster m.tags dest).contains tg)) = [] := by
      rw [hmv, htags]
      simp
    have hfil : (tagsToMove roster m.tags dest).filter (fun tg => !(isBlankTag tg)) = [t] := by
      rw [hmv]
      simp [List.filter_cons, hblank]
    refine ⟨?_, ?_, ?_, ?_, ?_⟩
    · rw [dropdown_src_after roster s src dest m s' hWF hm hne hds hs', if_pos hrem]
    · rw [dropdown_dest_after roster s src dest m s' hWF hm hne hds hs']
      cases hfd : findName s.members dest with
      | some d =>
        simp only [hfd]
        rw [hfil]
      | none =>
        simp only [hfd]
        rw [hfil, hmv]
        rw [jsSetDedup_eq_self [t] (List.nodup_singleton t)]
    · intro x hxs hxd
      exact dropdown_other_after roster s src dest m s' x hWF hm hne hds hxs hxd hs'
    · intro hdm
      obtain ⟨hOrd, hNm, hON, hNO⟩ := hWF
      have hsrcN : src ∈ memberNames s.members := by
        have := mem_of_findName _ _ _ hm
        exact this.2 ▸ List.mem_map_of_mem Member.name this.1
      have hsrcO : src ∈ s.order := hNO src hsrcN
      obtain ⟨l1, l2, hsplit⟩ := List.append_of_mem hsrcO
      have hnd : (l1 ++ src :: l2).Nodup := hsplit ▸ hOrd
      have h1 : src ∉ l1 := by
        rcases List.nodup_append.1 hnd with ⟨-, -, hdisj⟩
        intro hc
        exact hdisj hc (List.mem_cons_self _ _)
      have h2 : src ∉ l2 := by
        rcases List.nodup_append.1 hnd with ⟨-, hnd2, -⟩
        exact (List.nodup_cons.1 hnd2).1
      have hins : jsInsertAfter s.order src dest = l1 ++ src :: dest :: l2 := by
        unfold jsInsertAfter
        rw [if_pos hsrcO, hsplit]
        exact insertAfterFirst_decomp l1 l2 src dest h1
      refine ⟨l1, l2, hsplit, ?_⟩
      rw [dropdown_order_after roster s src dest m s' ⟨hOrd, hNm, hON, hNO⟩ hm hne hds hs']
      rw [if_pos hrem, if_neg hdm, hins]
      exact filter_out_mid l1 l2 src dest h1 h2 hds
    · intro hdm
      rw [dropdown_order_after roster s src dest m s' hWF hm hne hds hs']
      rw [if_pos hrem, if_pos hdm]

theorem claim6_witness :
    (WF exSW ∧ firstHolder exSW.members "a" = some (exMember "P" ["a", "b"]) ∧
      ("Q" : String) ≠ (exMember "P" ["a", "b"]).name ∧ exProf "Q" ∈ exRW "a" ∧
      (exProf "Q").name = "Q") ∧
    findName (swapMove exRW exSW "Q" "a").members "Q" =
      some (match findName exSW.members "Q" with
        | some d => { d with tags := d.tags ++ ["a"] }
        | none => { swapNewMember exRW "a" "Q" with tags := ["a"] }) :=
  ⟨⟨by decide, by decide, by decide, by decide, by decide⟩,
   ((claim6_single_tag_effect.1 exRW exSW "Q" "a" (exMember "P" ["a", "b"]) (by decide) (by decide)
     (by decide) ⟨exProf "Q", by decide, by decide⟩)).2.1⟩

/-- C10 is violated in its "still removed from the source" part: in a
multi-tag move the blank tag is filtered out of the tags to move, so it
is neither assigned to the destination nor removed from the source — the
source keeps it. -/
theorem claim10_counterexample :
    (isBlankTag "  " = true) ∧
    ("  " ∈ (exMember "S" ["a", "  "]).tags) ∧
    findName exS10.members "S" = some (exMember "S" ["a", "  "]) ∧
    dropdownMove exR10 exS10 "S" "D" =
      some ⟨["S", "D"], [exMember "S" ["  "], exMember "D" ["a"]]⟩ ∧
    ("  " ∉ (exMember "D" ["a"]).tags) ∧
    ("  " ∈ (exMember "S" ["  "]).tags) := by decide

/-- C10 (amended): a dropdown reassignment never assigns a blank
(whitespace-only) tag to the destination — any blank tag in the
destination's post-state set was already there before the move.  But the
blank tag is only removed from the source when the source's whole set is
moved (the single-tag case, where the emptied source is dropped); in a
multi-tag move a blank tag stays in the surviving source entry. -/
theorem claim10_blank_tags :
    (∀ (roster : Roster) (s : TeamState) (src dest : String) (m d' : Member) (s' : TeamState),
      WF s → findName s.members src = some m → dest ≠ "" → dest ≠ src →
      dropdownMove roster s src dest = some s' →
      findName s'.members dest = some d' →
      ∀ tg, isBlankTag tg = true → tg ∈ d'.tags →
        ∃ d, findName s.members dest = some d ∧ tg ∈ d.tags) ∧
    (∀ (roster : Roster) (s : TeamState) (src dest t : String) (m : Member) (s' : TeamState),
      WF s → findName s.members src = some m → m.tags = [t] →
      dest ≠ "" → dest ≠ src →
      dropdownMove roster s src dest = some s' →
      findName s'.members src = none) ∧
    (∀ (roster : Roster) (s : TeamState) (src dest : String) (m : Member) (s' : TeamState),
      WF s → findName s.members src = some m → 1 < m.tags.length →
      dest ≠ "" → dest ≠ src →
      dropdownMove roster s src dest = some s' →
      ∀ tg, tg ∈ m.tags → isBlankTag tg = true →
        ∃ p, findName s'.members src = some p ∧ tg ∈ p.tags) := by
  refine ⟨?_, ?_, ?_⟩
  · intro roster s src dest m d' s' hWF hm hne hds hs' hdest tg hblank htg
    rw [dropdown_dest_after roster s src dest m s' hWF hm hne hds hs'] at hdest
    cases hfd : findName s.members dest with
    | some d =>
      simp only [hfd, Option.some.injEq] at hdest
      subst hdest
      have htg' : tg ∈ jsSetDedup (d.tags ++ (tagsToMove roster m.tags dest).filter
          (fun x => !(isBlankTag x))) := htg
      rcases List.mem_append.1 ((mem_jsSetDedup _ _).1 htg') with h | h
      · exact ⟨d, rfl, h⟩
      · rcases List.mem_filter.1 h with ⟨-, hpred⟩
        rw [hblank] at hpred
        simp at hpred
    | none =>
      simp only [hfd, Option.some.injEq] at hdest
      subst hdest
      have htg' : tg ∈ jsSetDedup ((tagsToMove roster m.tags dest).filter
          (fun x => !(isBlankTag x))) := htg
      rcases List.mem_filter.1 ((mem_jsSetDedup _ _).1 htg') with ⟨-, hpred⟩
      rw [hblank] at hpred
      simp at hpred
  · intro roster s src dest t m s' hWF hm htags hne hds hs'
    have hmv : tagsToMove roster m.tags dest = [t] := by
      rw [htags]
      unfold tagsToMove
      rw [if_neg]
      rintro ⟨-, h2⟩
      simp at h2
    have hrem : m.tags.filter
        (fun tg => !((tagsToMove roster m.tags dest).contains tg)) = [] := by
      rw [hmv, htags]
      simp
    rw [dropdown_src_after roster s src dest m s' hWF hm hne hds hs', if_pos hrem]
  · intro roster s src dest m s' hWF hm hlen hne hds hs' tg htg hblank
    have hcond : newProfCommonCount roster m.tags dest ≥ 1 ∧ m.tags.length > 1 :=
      ⟨newProfCommonCount_pos roster m.tags dest, hlen⟩
    have hmv : tagsToMove roster m.tags dest =
        m.tags.filter (fun x => !(isBlankTag x) && (roster x).any (fun p => p.name == dest)) := by
      unfold tagsToMove
      rw [if_pos hcond]
    have hnotmv : tg ∉ tagsToMove roster m.tags dest := by
      rw [hmv]
      intro hc
      rcases List.mem_filter.1 hc with ⟨-, hpred⟩
      rw [hblank] at hpred
      simp at hpred
    have hinrem : tg ∈ m.tags.filter
        (fun x => !((tagsToMove roster m.tags dest).contains x)) := by
      rw [List.mem_filter]
      refine ⟨htg, ?_⟩
      simpa using hnotmv
    have hremne : m.tags.filter
        (fun x => !((tagsToMove roster m.tags dest).contains x)) ≠ [] := by
      intro h0
      rw [h0] at hinrem
      simp at hinrem
    rw [dropdown_src_after roster s src dest m s' hWF hm hne hds hs', if_neg hremne]
    exact ⟨_, rfl, hinrem⟩

theorem claim10_witness :
    (WF exS10 ∧ findName exS10.members "S" = some (exMember "S" ["a", "  "]) ∧
      1 < (exMember "S" ["a", "  "]).tags.length ∧ ("D" : String) ≠ "" ∧
      ("D" : String) ≠ "S" ∧
      dropdownMove exR10 exS10 "S" "D" =
        some ⟨["S", "D"], [exMember "S" ["  "], exMember "D" ["a"]]⟩ ∧
      "  " ∈ (exMember "S" ["a", "  "]).tags ∧ isBlankTag "  " = true) ∧
    ∃ p, findName (⟨["S", "D"],
        [exMember "S" ["  "], exMember "D" ["a"]]⟩ : TeamState).members "S" = some p ∧
      "  " ∈ p.tags :=
  ⟨⟨by decide, by decide, by decide, by decide, by decide, by decide, by decide, by decide⟩,
   claim10_blank_tags.2.2 exR10 exS10 "S" "D" (exMember "S" ["a", "  "])
     ⟨["S", "D"], [exMember "S" ["  "], exMember "D" ["a"]]⟩ (by decide) (by decide)
     (by decide) (by decide) (by decide) (by decide) "  " (by decide) (by decide)⟩
